import Mathlib

/-!
# Verification of the neo4j-graphrag-python script collection

A shallow embedding, in Lean 4, of the parts of the repository that its
specification makes claims about:

* `schema_manager.py`: schema hashing (`_calculate_schema_hash`), schema
  diffing (`compare_schemas`), and the fallible public operations
  (`store_schema_version`, `get_current_schema_version`, `export_schema`,
  `load_schema_from_file`);
* `build_kg_from_pdf.py`: rate-limit configuration and automatic schema
  tracking (`track_schema_automatically`, `increment_version`);
* `create_subdivision_links_batch.py`: the two-phase parcel/subdivision
  linking queries and their batch loop;
* `enrich_subdivisions_parcel_data.py`: CSV loading keyed by the first 8
  characters of FOLIO8, and batched UNWIND upserts;
* `extract_from_chunks.py`: batched asynchronous chunk extraction with
  per-chunk error swallowing;
* the uniform try/except/finally shape of the operational scripts.

Python values that the code manipulates dynamically are embedded as `PyVal`;
machine-level library functions that the code calls (`json.dumps`,
`hashlib.sha256`, UTF-8 encoding) are implemented here in full so that the
hash claims are about the real algorithms.
-/

/-! ## Python values

`PyVal` models the dynamically-typed JSON-serializable Python values that
`schema_manager.py` passes around: strings, ints, bools, `None`, lists
(also used for tuples, which `json.dumps` serializes as arrays), and dicts
(association lists in insertion order; a list representing an actual Python
dict has pairwise-distinct keys). -/

inductive PyVal where
  | str : String → PyVal
  | int : Int → PyVal
  | bool : Bool → PyVal
  | none : PyVal
  | list : List PyVal → PyVal
  | dict : List (String × PyVal) → PyVal

mutual

def PyVal.decEq : (a b : PyVal) → Decidable (a = b)
  | .str a, .str b =>
      match String.decEq a b with
      | isTrue h => isTrue (by rw [h])
      | isFalse h => isFalse (fun hh => h (by injection hh))
  | .int a, .int b =>
      match Int.decEq a b with
      | isTrue h => isTrue (by rw [h])
      | isFalse h => isFalse (fun hh => h (by injection hh))
  | .bool a, .bool b =>
      match Bool.decEq a b with
      | isTrue h => isTrue (by rw [h])
      | isFalse h => isFalse (fun hh => h (by injection hh))
  | .none, .none => isTrue rfl
  | .list xs, .list ys =>
      match PyVal.decEqList xs ys with
      | isTrue h => isTrue (by rw [h])
      | isFalse h => isFalse (fun hh => h (by injection hh))
  | .dict xs, .dict ys =>
      match PyVal.decEqDict xs ys with
      | isTrue h => isTrue (by rw [h])
      | isFalse h => isFalse (fun hh => h (by injection hh))
  | .str _, .int _ => isFalse (fun h => PyVal.noConfusion h)
  | .str _, .bool _ => isFalse (fun h => PyVal.noConfusion h)
  | .str _, .none => isFalse (fun h => PyVal.noConfusion h)
  | .str _, .list _ => isFalse (fun h => PyVal.noConfusion h)
  | .str _, .dict _ => isFalse (fun h => PyVal.noConfusion h)
  | .int _, .str _ => isFalse (fun h => PyVal.noConfusion h)
  | .int _, .bool _ => isFalse (fun h => PyVal.noConfusion h)
  | .int _, .none => isFalse (fun h => PyVal.noConfusion h)
  | .int _, .list _ => isFalse (fun h => PyVal.noConfusion h)
  | .int _, .dict _ => isFalse (fun h => PyVal.noConfusion h)
  | .bool _, .str _ => isFalse (fun h => PyVal.noConfusion h)
  | .bool _, .int _ => isFalse (fun h => PyVal.noConfusion h)
  | .bool _, .none => isFalse (fun h => PyVal.noConfusion h)
  | .bool _, .list _ => isFalse (fun h => PyVal.noConfusion h)
  | .bool _, .dict _ => isFalse (fun h => PyVal.noConfusion h)
  | .none, .str _ => isFalse (fun h => PyVal.noConfusion h)
  | .none, .int _ => isFalse (fun h => PyVal.noConfusion h)
  | .none, .bool _ => isFalse (fun h => PyVal.noConfusion h)
  | .none, .list _ => isFalse (fun h => PyVal.noConfusion h)
  | .none, .dict _ => isFalse (fun h => PyVal.noConfusion h)
  | .list _, .str _ => isFalse (fun h => PyVal.noConfusion h)
  | .list _, .int _ => isFalse (fun h => PyVal.noConfusion h)
  | .list _, .bool _ => isFalse (fun h => PyVal.noConfusion h)
  | .list _, .none => isFalse (fun h => PyVal.noConfusion h)
  | .list _, .dict _ => isFalse (fun h => PyVal.noConfusion h)
  | .dict _, .str _ => isFalse (fun h => PyVal.noConfusion h)
  | .dict _, .int _ => isFalse (fun h => PyVal.noConfusion h)
  | .dict _, .bool _ => isFalse (fun h => PyVal.noConfusion h)
  | .dict _, .none => isFalse (fun h => PyVal.noConfusion h)
  | .dict _, .list _ => isFalse (fun h => PyVal.noConfusion h)

def PyVal.decEqList : (xs ys : List PyVal) → Decidable (xs = ys)
  | [], [] => isTrue rfl
  | [], _ :: _ => isFalse (fun h => List.noConfusion h)
  | _ :: _, [] => isFalse (fun h => List.noConfusion h)
  | x :: xs, y :: ys =>
      match PyVal.decEq x y, PyVal.decEqList xs ys with
      | isTrue h1, isTrue h2 => isTrue (by rw [h1, h2])
      | isFalse h1, _ => isFalse (fun h => h1 (by injection h))
      | isTrue _, isFalse h2 => isFalse (fun h => h2 (by injection h))

def PyVal.decEqDict : (xs ys : List (String × PyVal)) → Decidable (xs = ys)
  | [], [] => isTrue rfl
  | [], _ :: _ => isFalse (fun h => List.noConfusion h)
  | _ :: _, [] => isFalse (fun h => List.noConfusion h)
  | (k1, v1) :: xs, (k2, v2) :: ys =>
      match String.decEq k1 k2, PyVal.decEq v1 v2, PyVal.decEqDict xs ys with
      | isTrue h0, isTrue h1, isTrue h2 => isTrue (by rw [h0, h1, h2])
      | isFalse h0, _, _ => isFalse (fun h => by cases h; exact h0 rfl)
      | isTrue _, isFalse h1, _ => isFalse (fun h => by cases h; exact h1 rfl)
      | isTrue _, isTrue _, isFalse h2 => isFalse (fun h => by cases h; exact h2 rfl)

end

instance : DecidableEq PyVal := PyVal.decEq

/-- Python truthiness (`bool(v)`) on the values of `PyVal`: `None`, `False`,
`0`, `""`, `[]` and `\x7b\x7d` are falsy, everything else is truthy. -/
def pyTruthy : PyVal → Bool
  | .str s => s ≠ ""
  | .int n => n ≠ 0
  | .bool b => b
  | .none => false
  | .list xs => xs ≠ []
  | .dict d => d ≠ []

/-- Python `dict.get(k, default)` on the association-list representation:
the value of the first pair with the given key, else the default. -/
def pyDictGet (d : List (String × PyVal)) (k : String) (default : PyVal) : PyVal :=
  match d.lookup k with
  | some v => v
  | Option.none => default

/-! ## `json.dumps`

A character-level implementation of CPython's `json.dumps` with default
arguments (`ensure_ascii=True`, `indent=None`, hence item separator `", "`
and key separator `": "`), with and without `sort_keys=True`.
With `sort_keys=True` the encoder iterates over `sorted(dct.items())`;
since a Python dict never holds two equal keys, that order is determined by
the keys alone, so we sort the already-serialized entries by key (the
comparison never reaches the values). -/

/-- Lowercase hex digit for `n < 16`. -/
def hexDigit (n : Nat) : Char := Char.ofNat (if n < 10 then 48 + n else 87 + n)

/-- Fixed-width big-endian lowercase hex rendering of `x`. -/
def toHexFixed : Nat → Nat → List Char
  | 0, _ => []
  | k + 1, x => toHexFixed k (x / 16) ++ [hexDigit (x % 16)]

/-- `\uXXXX` escape used by `ensure_ascii=True`, with a surrogate pair for
code points beyond the basic multilingual plane. -/
def uEscape (n : Nat) : List Char :=
  if n < 65536 then '\\' :: 'u' :: toHexFixed 4 n
  else
    let m := n - 65536
    '\\' :: 'u' :: toHexFixed 4 (55296 + m / 1024) ++
      '\\' :: 'u' :: toHexFixed 4 (56320 + m % 1024)

/-- Escaping of one character inside a JSON string literal, as CPython's
`py_encode_basestring_ascii` does it: named escapes for `"` `\` and the
common control characters, `\uXXXX` for the rest outside `0x20`-`0x7e`. -/
def jsonEscChar (c : Char) : List Char :=
  if c = '"' then ['\\', '"']
  else if c = '\\' then ['\\', '\\']
  else if c.toNat = 8 then ['\\', 'b']
  else if c.toNat = 9 then ['\\', 't']
  else if c.toNat = 10 then ['\\', 'n']
  else if c.toNat = 12 then ['\\', 'f']
  else if c.toNat = 13 then ['\\', 'r']
  else if c.toNat < 32 || c.toNat > 126 then uEscape c.toNat
  else [c]

/-- JSON string literal for `s`. -/
def jsonStrLit (s : String) : List Char :=
  '"' :: s.data.flatMap jsonEscChar ++ ['"']

/-- `", ".join`-style concatenation. -/
def joinSep (sep : List Char) : List (List Char) → List Char
  | [] => []
  | [x] => x
  | x :: y :: rest => x ++ sep ++ joinSep sep (y :: rest)

/-- Python's `<` on `str`: lexicographic comparison of code points. -/
def strLt : List Char → List Char → Bool
  | [], [] => false
  | [], _ :: _ => true
  | _ :: _, [] => false
  | a :: as, b :: bs =>
      if a.toNat < b.toNat then true
      else if b.toNat < a.toNat then false
      else strLt as bs

/-- Python's `<=` on `str` (a total order, so `a <= b` iff `not (b < a)`). -/
def pyStrLe (a b : String) : Bool := ! strLt b.data a.data

/-- Insertion into a key-sorted serialized-entry list. -/
def insertEntry (p : String × List Char) :
    List (String × List Char) → List (String × List Char)
  | [] => [p]
  | q :: rest => if pyStrLe p.1 q.1 then p :: q :: rest else q :: insertEntry p rest

/-- Sorting serialized dict entries by key, as `sorted(dct.items())` orders the
items of a Python dict (distinct keys, so the comparison never reaches the
values). -/
def sortEntries : List (String × List Char) → List (String × List Char)
  | [] => []
  | p :: rest => insertEntry p (sortEntries rest)

mutual

/-- `json.dumps(v)` as a character list; `sortKeys` selects `sort_keys=True`. -/
def dumpsVal (sortKeys : Bool) : PyVal → List Char
  | .str s => jsonStrLit s
  | .int n => (toString n).data
  | .bool b => if b then "true".data else "false".data
  | .none => "null".data
  | .list xs => '[' :: joinSep (", ".data) (dumpsList sortKeys xs) ++ [']']
  | .dict d =>
      let entries := dumpsEntries sortKeys d
      let ordered := if sortKeys then sortEntries entries else entries
      '\x7b' :: joinSep (", ".data)
        (ordered.map (fun p => jsonStrLit p.1 ++ ':' :: ' ' :: p.2)) ++ ['\x7d']

def dumpsList (sortKeys : Bool) : List PyVal → List (List Char)
  | [] => []
  | x :: xs => dumpsVal sortKeys x :: dumpsList sortKeys xs

def dumpsEntries (sortKeys : Bool) : List (String × PyVal) → List (String × List Char)
  | [] => []
  | (k, v) :: rest => (k, dumpsVal sortKeys v) :: dumpsEntries sortKeys rest

end

/-- `json.dumps(v)` with default arguments. -/
def json_dumps (v : PyVal) : String := (dumpsVal false v).asString

/-- `json.dumps(v, sort_keys=True)`. -/
def json_dumps_sorted (v : PyVal) : String := (dumpsVal true v).asString

/-! ## UTF-8 and SHA-256

`str.encode()` and `hashlib.sha256` as the Python standard library provides
them, over byte lists (each byte a `Nat < 256`); FIPS 180-4 / RFC 6234. -/

/-- UTF-8 encoding of one code point. -/
def utf8Char (c : Char) : List Nat :=
  let n := c.toNat
  if n < 128 then [n]
  else if n < 2048 then [192 + n / 64, 128 + n % 64]
  else if n < 65536 then [224 + n / 4096, 128 + n / 64 % 64, 128 + n % 64]
  else [240 + n / 262144, 128 + n / 4096 % 64, 128 + n / 64 % 64, 128 + n % 64]

/-- `s.encode()`: UTF-8 bytes of a string. -/
def utf8Bytes (s : String) : List Nat := s.data.flatMap utf8Char

/-- Truncation to 32 bits. -/
def w32 (n : Nat) : Nat := n % 4294967296

/-- 32-bit right rotation. -/
def rotr32 (n x : Nat) : Nat := ((x >>> n) ||| (x <<< (32 - n))) % 4294967296

/-- 32-bit complement. -/
def not32 (x : Nat) : Nat := x ^^^ 4294967295

def bsig0 (x : Nat) : Nat := rotr32 2 x ^^^ rotr32 13 x ^^^ rotr32 22 x

def bsig1 (x : Nat) : Nat := rotr32 6 x ^^^ rotr32 11 x ^^^ rotr32 25 x

def ssig0 (x : Nat) : Nat := rotr32 7 x ^^^ rotr32 18 x ^^^ (x >>> 3)

def ssig1 (x : Nat) : Nat := rotr32 17 x ^^^ rotr32 19 x ^^^ (x >>> 10)

def ch32 (x y z : Nat) : Nat := (x &&& y) ^^^ (not32 x &&& z)

def maj32 (x y z : Nat) : Nat := (x &&& y) ^^^ (x &&& z) ^^^ (y &&& z)

/-- The 64 SHA-256 round constants. -/
def sha256K : List Nat := [
  1116352408, 1899447441, 3049323471, 3921009573, 961987163, 1508970993,
  2453635748, 2870763221, 3624381080, 310598401, 607225278, 1426881987,
  1925078388, 2162078206, 2614888103, 3248222580, 3835390401, 4022224774,
  264347078, 604807628, 770255983, 1249150122, 1555081692, 1996064986,
  2554220882, 2821834349, 2952996808, 3210313671, 3336571891, 3584528711,
  113926993, 338241895, 666307205, 773529912, 1294757372, 1396182291,
  1695183700, 1986661051, 2177026350, 2456956037, 2730485921, 2820302411,
  3259730800, 3345764771, 3516065817, 3600352804, 4094571909, 275423344,
  430227734, 506948616, 659060556, 883997877, 958139571, 1322822218,
  1537002063, 1747873779, 1955562222, 2024104815, 2227730452, 2361852424,
  2428436474, 2756734187, 3204031479, 3329325298]

/-- The SHA-256 initial hash value. -/
def sha256H0 : List Nat :=
  [1779033703, 3144134277, 1013904242, 2773480762,
   1359893119, 2600822924, 528734635, 1541459225]

/-- Big-endian byte decomposition with fixed width. -/
def bytesBE : Nat → Nat → List Nat
  | 0, _ => []
  | k + 1, x => bytesBE k (x / 256) ++ [x % 256]

/-- SHA-256 padding: a `0x80` byte, zeros up to 56 mod 64, then the 8-byte
big-endian bit length. -/
def padMessage (msg : List Nat) : List Nat :=
  let L := msg.length
  msg ++ [128] ++ List.replicate ((119 - L % 64) % 64) 0 ++ bytesBE 8 (8 * L)

/-- Big-endian 32-bit words from bytes. -/
def bytesToWords : List Nat → List Nat
  | b0 :: b1 :: b2 :: b3 :: rest =>
      (((b0 * 256 + b1) * 256 + b2) * 256 + b3) :: bytesToWords rest
  | _ => []

/-- 16-word (512-bit) blocks. -/
def toBlocks16 (ws : List Nat) : List (List Nat) :=
  (List.range ((ws.length + 15) / 16)).map (fun i => (ws.drop (16 * i)).take 16)

/-- The 64-entry message schedule of one block. -/
def schedule (block : List Nat) : List Nat :=
  (List.range 48).foldl
    (fun W i =>
      let t := i + 16
      W ++ [w32 (ssig1 (W.getD (t - 2) 0) + W.getD (t - 7) 0 +
        ssig0 (W.getD (t - 15) 0) + W.getD (t - 16) 0)]) block

/-- One round of the SHA-256 compression function on the 8-word state. -/
def roundStep (W : List Nat) (st : List Nat) (i : Nat) : List Nat :=
  match st with
  | [a, b, c, d, e, f, g, h] =>
    let T1 := w32 (h + bsig1 e + ch32 e f g + sha256K.getD i 0 + W.getD i 0)
    let T2 := w32 (bsig0 a + maj32 a b c)
    [w32 (T1 + T2), a, b, c, w32 (d + T1), e, f, g]
  | st => st

/-- Compression of one block into the running hash. -/
def compress (hs : List Nat) (block : List Nat) : List Nat :=
  let W := schedule block
  let fin := (List.range 64).foldl (roundStep W) hs
  List.zipWith (fun x y => w32 (x + y)) hs fin

/-- The eight 32-bit words of the SHA-256 digest of a byte list. -/
def sha256Words (msg : List Nat) : List Nat :=
  (toBlocks16 (bytesToWords (padMessage msg))).foldl compress sha256H0

/-- `hashlib.sha256(msg).hexdigest()` as a character list: 64 lowercase hex
characters. -/
def sha256HexChars (msg : List Nat) : List Char :=
  (sha256Words msg).flatMap (toHexFixed 8)

/-- `hashlib.sha256(s.encode()).hexdigest()`. -/
def sha256_hexdigest (s : String) : String := (sha256HexChars (utf8Bytes s)).asString

/-! ## `SchemaManager._calculate_schema_hash` -/

/-- From `schema_manager.py`:
`_calculate_schema_hash` serializes the schema with
`json.dumps(schema, sort_keys=True)` and returns
`hashlib.sha256(schema_json.encode()).hexdigest()[:16]`. -/
def _calculate_schema_hash (schema : PyVal) : String :=
  ((sha256HexChars (utf8Bytes (json_dumps_sorted schema))).take 16).asString

/-- Modelled from the spec: the claim that the stored schema hash "is the
SHA-256 hash of the schema's JSON serialization, i.e. the hex digest of
sha256 applied to json.dumps of the schema with sorted keys" — the full,
untruncated hex digest. -/
def specSchemaHashFull (schema : PyVal) : String :=
  sha256_hexdigest (json_dumps_sorted schema)

/-- A concrete schema dictionary of the shape the repository stores
(`build_kg_from_pdf.get_current_schema_dict`). -/
def sampleSchema : PyVal :=
  .dict [
    ("node_types", .list [.str "Zone",
      .dict [("label", .str "Section"), ("description", .str "A codified section")]]),
    ("relationship_types", .list [.str "APPLIES_TO"]),
    ("patterns", .list [.list [.str "Section", .str "APPLIES_TO", .str "Zone"]])]

/-! ## `SchemaManager.compare_schemas`

The three collections of a schema dictionary as `compare_schemas` accesses
them.  Relationship types and patterns are put into Python `set`s, so they
must be hashable; in this repository they are strings and 3-tuples of
strings, which is how they are typed here.  Node types are strings or dicts
and are keyed by `_get_label`. -/

structure SchemaD where
  node_types : List PyVal
  relationship_types : List String
  patterns : List (String × String × String)
deriving DecidableEq

/-- `SchemaManager._get_label`: the node type itself if it is a string, its
`"label"` entry if it is a dict (always a string in this repository's
schemas), `""` otherwise. -/
def _get_label : PyVal → String
  | .str s => s
  | .dict d =>
      match d.lookup "label" with
      | some (.str s) => s
      | some _ => ""
      | Option.none => ""
  | _ => ""

/-- Python dict insertion: overwrite the value in place when the key is
present, append otherwise. -/
def dictInsert (m : List (String × PyVal)) (k : String) (v : PyVal) :
    List (String × PyVal) :=
  if m.any (fun p => p.1 == k) then m.map (fun p => if p.1 == k then (k, v) else p)
  else m ++ [(k, v)]

/-- The dict comprehension `\x7bself._get_label(nt): nt for nt in
schema.get("node_types", [])\x7d`: later node types with the same label
overwrite earlier ones. -/
def buildNodeMap (nts : List PyVal) : List (String × PyVal) :=
  nts.foldl (fun m nt => dictInsert m (_get_label nt) nt) []

/-- The `SchemaChange` pydantic model. -/
structure SchemaChange where
  change_type : String
  entity_type : String
  name : String
  details : PyVal
deriving DecidableEq

/-- `f"\x7bpattern[0]\x7d-\x7bpattern[1]\x7d-\x7bpattern[2]\x7d"`. -/
def patternName (p : String × String × String) : String :=
  p.1 ++ "-" ++ p.2.1 ++ "-" ++ p.2.2

/-- The pattern tuple as the `PyVal` stored in the change details. -/
def patternVal (p : String × String × String) : PyVal :=
  .list [.str p.1, .str p.2.1, .str p.2.2]

/-- `SchemaManager.compare_schemas`, block for block from the source: added
and modified node types (iterating the new label map), removed node types,
added and removed relationship types (set membership), added and removed
patterns (set membership).  Python `set(xs)` iteration is modelled by
`xs.dedup`; membership in the set coincides with membership in `xs`. -/
def compare_schemas (old_schema new_schema : SchemaD) : List SchemaChange :=
  let old_nodes := buildNodeMap old_schema.node_types
  let new_nodes := buildNodeMap new_schema.node_types
  let old_rels := old_schema.relationship_types.dedup
  let new_rels := new_schema.relationship_types.dedup
  let old_patterns := old_schema.patterns.dedup
  let new_patterns := new_schema.patterns.dedup
  (new_nodes.flatMap fun p =>
    match old_nodes.lookup p.1 with
    | Option.none =>
        [⟨"added", "node_type", p.1, .dict [("node_type", p.2)]⟩]
    | some ont =>
        if ont ≠ p.2 then
          [⟨"modified", "node_type", p.1, .dict [("old", ont), ("new", p.2)]⟩]
        else []) ++
  (old_nodes.flatMap fun p =>
    if (new_nodes.lookup p.1).isNone then
      [⟨"removed", "node_type", p.1, .dict []⟩]
    else []) ++
  (new_rels.flatMap fun r =>
    if r ∈ old_rels then [] else [⟨"added", "relationship_type", r, .dict []⟩]) ++
  (old_rels.flatMap fun r =>
    if r ∈ new_rels then [] else [⟨"removed", "relationship_type", r, .dict []⟩]) ++
  (new_patterns.flatMap fun p =>
    if p ∈ old_patterns then []
    else [⟨"added", "pattern", patternName p, .dict [("pattern", patternVal p)]⟩]) ++
  (old_patterns.flatMap fun p =>
    if p ∈ new_patterns then []
    else [⟨"removed", "pattern", patternName p, .dict []⟩])

/-! ## The fallible `SchemaManager` operations

Each public operation wraps its database query (or file access) in a broad
`try/except` that logs and returns a failure value.  The external effect is
an oracle argument: `Except.error` means the guarded operation raised. -/

/-- The parameters `store_schema_version` passes to its MERGE query. -/
structure StoreParams where
  version : String
  schema_hash : String
  node_types_json : String
  relationship_types_json : String
  patterns_json : String
  description : String
deriving DecidableEq

/-- Result of `store_schema_version`: the returned boolean, the query
parameters, and whether the failure branch logged an error. -/
structure StoreOutcome where
  returned : Bool
  params : StoreParams
  logged_error : Bool
deriving DecidableEq

/-- `SchemaManager.store_schema_version`: hash the schema, serialize the three
collections to JSON strings (`"[]"` for falsy values), run the MERGE query;
`True` on success, on exception log the error and return `False`.
`description or ""` is `description.getD ""` since `"" or ""` is `""`. -/
def store_schema_version (schema : List (String × PyVal)) (version : String)
    (description : Option String) (db : Except String Unit) : StoreOutcome :=
  let schema_hash := _calculate_schema_hash (.dict schema)
  let node_types := pyDictGet schema "node_types" (.list [])
  let relationship_types := pyDictGet schema "relationship_types" (.list [])
  let patterns := pyDictGet schema "patterns" (.list [])
  let node_types_json := if pyTruthy node_types then json_dumps node_types else "[]"
  let relationship_types_json :=
    if pyTruthy relationship_types then json_dumps relationship_types else "[]"
  let patterns_json := if pyTruthy patterns then json_dumps patterns else "[]"
  let params : StoreParams :=
    ⟨version, schema_hash, node_types_json, relationship_types_json, patterns_json,
      description.getD ""⟩
  match db with
  | .ok _ => ⟨true, params, false⟩
  | .error _ => ⟨false, params, true⟩

/-- A stored schema version as `get_current_schema_version` reconstructs it
from the `SchemaMetadata` node. -/
structure SchemaVersionRec where
  version : String
  schema_hash : String
  node_types : List PyVal
  relationship_types : List String
  patterns : List (String × String × String)
  created_at : String
  description : Option String
deriving DecidableEq

/-- Oracle for `get_current_schema_version`: the query (or the JSON decoding
of the record it returns) raised, returned no record, or produced a decoded
record. -/
inductive GetOutcome where
  | raised (msg : String)
  | empty
  | found (v : SchemaVersionRec)
deriving DecidableEq

/-- `SchemaManager.get_current_schema_version`: the latest stored version, or
`None` if there is none, or — logging the error — `None` when the query or
the decoding raised.  The boolean records whether an error was logged. -/
def get_current_schema_version : GetOutcome → Option SchemaVersionRec × Bool
  | .raised _ => (Option.none, true)
  | .empty => (Option.none, false)
  | .found v => (some v, false)

/-- `SchemaManager.export_schema`: `False` (logging an error) when there is no
stored version or the file write raised, `True` after a successful write. -/
def export_schema (g : GetOutcome) (write : Except String Unit) : Bool × Bool :=
  match (get_current_schema_version g).1 with
  | Option.none => (false, true)
  | some _ =>
      match write with
      | .ok _ => (true, false)
      | .error _ => (false, true)

/-- `SchemaManager.load_schema_from_file`: the parsed schema dictionary, or —
logging the error — `None` when the file read or `json.load` raised. -/
def load_schema_from_file (read : Except String PyVal) : Option PyVal × Bool :=
  match read with
  | .ok v => (some v, false)
  | .error _ => (Option.none, true)

/-! ## `build_kg_from_pdf`: `increment_version` and automatic schema tracking -/

/-- Python whitespace stripping (`str.strip()` with no argument). -/
def isPySpace (c : Char) : Bool :=
  c.toNat = 32 ∨ c.toNat = 9 ∨ c.toNat = 10 ∨ c.toNat = 13 ∨ c.toNat = 11 ∨ c.toNat = 12

/-- `s.strip()`. -/
def pyStrip (s : String) : String :=
  (((s.data.dropWhile isPySpace).reverse.dropWhile isPySpace).reverse).asString

/-- Python `int(s)` on a decimal literal: optional surrounding whitespace,
optional sign, at least one digit; `Option.none` models `ValueError`. -/
def parsePyInt (s : String) : Option Int :=
  let t := (pyStrip s).data
  let core : Option (Bool × List Char) :=
    match t with
    | '-' :: rest => some (true, rest)
    | '+' :: rest => some (false, rest)
    | rest => some (false, rest)
  match core with
  | some (neg, ds) =>
      if ds ≠ [] ∧ ds.all (fun c => c.toNat ≥ 48 ∧ c.toNat ≤ 57) then
        let n : Nat := ds.foldl (fun acc c => acc * 10 + (c.toNat - 48)) 0
        some (if neg then -(n : Int) else (n : Int))
      else Option.none
  | Option.none => Option.none

/-- `build_kg_from_pdf.increment_version`: split on `"."`; with exactly three
parts, increment the integer patch component; otherwise, or when `int(patch)`
raises, return `"1.0.1"`. -/
def increment_version (version : String) : String :=
  match version.splitOn "." with
  | [major, minor, patch] =>
      match parsePyInt patch with
      | some n => major ++ "." ++ minor ++ "." ++ toString (n + (1 : Int))
      | Option.none => "1.0.1"
  | _ => "1.0.1"

/-- The schema dictionary `track_schema_automatically` rebuilds from a stored
version's fields. -/
def storedSchemaOf (sv : SchemaVersionRec) : SchemaD :=
  ⟨sv.node_types, sv.relationship_types, sv.patterns⟩

/-- What `track_schema_automatically` did. -/
inductive TrackResult where
  | unavailable
  | unchanged (version : String)
  | skippedNoVersion
  | storeCalled (version : String) (description : String)
deriving DecidableEq

/-- `build_kg_from_pdf.track_schema_automatically`: skip when the schema
manager is unavailable; with a stored version, compare and return without
storing when there are no changes; otherwise determine the version
(explicit, auto-incremented, or skip), defaulting the description, and call
`store_schema_version`. -/
def track_schema_automatically (available : Bool) (stored : Option SchemaVersionRec)
    (schema : SchemaD) (version : Option String) (description : Option String)
    (auto_increment : Bool) : TrackResult :=
  if ¬ available then .unavailable
  else
    let desc : String :=
      match description with
      | some d => if d ≠ "" then d else "Automatically tracked after build"
      | Option.none => "Automatically tracked after build"
    let determined : Option (Option String) :=
      match stored with
      | some sv =>
          if compare_schemas (storedSchemaOf sv) schema = [] then Option.none
          else
            match version with
            | some v => some (some v)
            | Option.none =>
                if auto_increment then some (some (increment_version sv.version))
                else some Option.none
      | Option.none =>
          match version with
          | some v => some (some v)
          | Option.none => some (some "1.0.0")
    match stored, determined with
    | some sv, Option.none => .unchanged sv.version
    | _, some Option.none => .skippedNoVersion
    | _, some (some new_version) => .storeCalled new_version desc
    | Option.none, Option.none => .skippedNoVersion

/-! ## `build_kg_from_pdf`: rate-limit configuration -/

/-- Python `float(s)` on the decimal literals used for these settings:
optional surrounding whitespace and sign, digits with an optional single
decimal point; `Option.none` models `ValueError`. -/
def parsePyFloat (s : String) : Option Rat :=
  let t := (pyStrip s).data
  let signed : Bool × List Char :=
    match t with
    | '-' :: r => (true, r)
    | '+' :: r => (false, r)
    | r => (false, r)
  let digitsOnly : List Char → Bool := fun l => l.all (fun c => 48 ≤ c.toNat ∧ c.toNat ≤ 57)
  let dval : List Char → Nat := fun l => l.foldl (fun a c => a * 10 + (c.toNat - 48)) 0
  match signed.2.splitOn '.' with
  | [ip] =>
      if ip ≠ [] ∧ digitsOnly ip then
        let v : Rat := mkRat (dval ip) 1
        some (if signed.1 then Rat.neg v else v)
      else Option.none
  | [ip, fp] =>
      if (ip ≠ [] ∨ fp ≠ []) ∧ digitsOnly ip ∧ digitsOnly fp then
        let v : Rat := mkRat (dval ip * 10 ^ fp.length + dval fp) (10 ^ fp.length)
        some (if signed.1 then Rat.neg v else v)
      else Option.none
  | _ => Option.none

/-- `os.getenv(key, default)`, over an environment modelled as a partial map. -/
def os_getenv (env : String → Option String) (k d : String) : String := (env k).getD d

/-- `int(os.getenv("RATE_LIMIT_MAX_ATTEMPTS", "5"))`. -/
def RATE_LIMIT_MAX_ATTEMPTS (env : String → Option String) : Option Int :=
  parsePyInt (os_getenv env "RATE_LIMIT_MAX_ATTEMPTS" "5")

/-- `float(os.getenv("RATE_LIMIT_MIN_WAIT", "2.0"))`. -/
def RATE_LIMIT_MIN_WAIT (env : String → Option String) : Option Rat :=
  parsePyFloat (os_getenv env "RATE_LIMIT_MIN_WAIT" "2.0")

/-- `float(os.getenv("RATE_LIMIT_MAX_WAIT", "120.0"))`. -/
def RATE_LIMIT_MAX_WAIT (env : String → Option String) : Option Rat :=
  parsePyFloat (os_getenv env "RATE_LIMIT_MAX_WAIT" "120.0")

/-- `float(os.getenv("RATE_LIMIT_MULTIPLIER", "2.0"))`. -/
def RATE_LIMIT_MULTIPLIER (env : String → Option String) : Option Rat :=
  parsePyFloat (os_getenv env "RATE_LIMIT_MULTIPLIER" "2.0")

/-- The retry/backoff handler of the external `neo4j_graphrag` library as the
driver configures it; the driver itself implements no retry logic. -/
structure RetryRateLimitHandler where
  max_attempts : Int
  min_wait : Rat
  max_wait : Rat
  multiplier : Rat
  jitter : Bool
deriving DecidableEq

/-- The module-level rate-limit configuration of `build_kg_from_pdf.py`
(`Option.none` when a set variable fails `int`/`float`, which would raise
while the module loads). -/
def rateLimitConfig (env : String → Option String) : Option RetryRateLimitHandler := do
  let ma ← RATE_LIMIT_MAX_ATTEMPTS env
  let mn ← RATE_LIMIT_MIN_WAIT env
  let mx ← RATE_LIMIT_MAX_WAIT env
  let mu ← RATE_LIMIT_MULTIPLIER env
  pure ⟨ma, mn, mx, mu, true⟩

/-- The rate-limit handlers attached to the two clients
`build_knowledge_graph_from_pdf` constructs. -/
structure PipelineClients where
  llm_handler : RetryRateLimitHandler
  embedder_handler : RetryRateLimitHandler
deriving DecidableEq

/-- `build_knowledge_graph_from_pdf` builds one `RetryRateLimitHandler` with
`jitter=True` and passes that same handler to both `OpenAILLM` and
`OpenAIEmbeddings`. -/
def build_kg_clients (env : String → Option String) : Option PipelineClients :=
  (rateLimitConfig env).map (fun h => ⟨h, h⟩)

/-! ## `extract_from_chunks`: batched chunk extraction -/

/-- Outcome of one chunk's LLM call in `extract_from_chunks.process_chunk`. -/
inductive LLMOutcome where
  | ok (data : PyVal)
  | llmError (msg : String)
  | jsonError (msg : String)

/-- `process_chunk`: the parsed JSON on success; on any exception from the
completion call or from `json.loads`, print the error and return `None`.
The boolean records whether the error message was printed. -/
def process_chunk : LLMOutcome → Option PyVal × Bool
  | .ok d => (some d, false)
  | .llmError _ => (Option.none, true)
  | .jsonError _ => (Option.none, true)

/-- `batch_size = 10` in `extract_from_chunks.main`. -/
def extract_batch_size : Nat := 10

/-- `for i in range(0, len(chunks), batch_size)`: the consecutive slices
`chunks[i : i + batch_size]`. -/
def extract_batches {α : Type} (chunks : List α) : List (List α) :=
  (List.range' 0 ((chunks.length + extract_batch_size - 1) / extract_batch_size)
      extract_batch_size).map
    (fun i => (chunks.drop i).take extract_batch_size)

/-- `if not res: continue`: the results that survive to the graph-writing
step are the truthy ones. -/
def successValue (o : LLMOutcome) : Option PyVal :=
  match (process_chunk o).1 with
  | some d => if pyTruthy d then some d else Option.none
  | Option.none => Option.none

/-- `extract_from_chunks.main`'s extraction phase: fan each batch out with
`asyncio.gather` (one `process_chunk` per chunk) and keep, in order, the
truthy results of each batch. -/
def extract_processed {α : Type} (chunks : List α) (oracle : α → LLMOutcome) : List PyVal :=
  (extract_batches chunks).flatMap (fun b =>
    (b.map (fun c => (process_chunk (oracle c)).1)).filterMap
      (fun r =>
        match r with
        | some d => if pyTruthy d then some d else Option.none
        | Option.none => Option.none))

/-! ## Script control flow

The operational scripts are sequences of fallible statements under various
`try/except/finally` arrangements.  A `Script` maps a state to an optional
uncaught exception and a new state; the oracle arguments say which database
or API requests raise. -/

/-- Observable state of a script run. -/
structure PyState where
  connOpen : Bool
  printedError : Bool
  queriesStarted : Nat
deriving DecidableEq

def Script : Type := PyState → Option String × PyState

/-- Sequencing: the second statement runs only when the first did not raise. -/
def seqS (a b : Script) : Script := fun s =>
  match a s with
  | (some e, s') => (some e, s')
  | (Option.none, s') => b s'

def skipS : Script := fun s => (Option.none, s)

/-- A database/API request: it is started, then succeeds or raises. -/
def runQuery (outcome : Option String) : Script := fun s =>
  (outcome, { s with queriesStarted := s.queriesStarted + 1 })

/-- `driver.close()`. -/
def closeConn : Script := fun s => (Option.none, { s with connOpen := false })

/-- `print(f"Error: \x7be\x7d")` in an `except` branch. -/
def printError : Script := fun s => (Option.none, { s with printedError := true })

def seqAll : List Script → Script
  | [] => skipS
  | a :: rest => seqS a (seqAll rest)

/-- `try: body / except Exception: handler / finally: fin`.  The body's
exception is swallowed by the handler; an exception of the handler itself
survives the finally block unless the finally block raises. -/
def tryExceptFinally (body handler fin : Script) : Script := fun s =>
  match body s with
  | (Option.none, s₁) => fin s₁
  | (some _, s₁) =>
      match handler s₁ with
      | (Option.none, s₂) => fin s₂
      | (some e, s₂) =>
          match fin s₂ with
          | (Option.none, s₃) => (some e, s₃)
          | (some e₂, s₃) => (some e₂, s₃)

/-- `try: body / finally: fin` with no except clause: the body's exception
propagates after the finally block runs. -/
def tryFinallyS (body fin : Script) : Script := fun s =>
  match body s with
  | (Option.none, s₁) => fin s₁
  | (some e, s₁) =>
      match fin s₁ with
      | (Option.none, s₂) => (some e, s₂)
      | (some e₂, s₂) => (some e₂, s₂)

/-- State right after `GraphDatabase.driver(...)`: connection open, nothing
printed, no request started. -/
def initState : PyState := ⟨true, false, 0⟩

/-- `check_parcel_subdiv.py` module body: run the lookup query, print the
fields, `driver.close()` — with no `try`/`except`/`finally` anywhere. -/
def check_parcel_subdiv_script (query : Option String) : Script :=
  seqS (runQuery query) closeConn

/-- A `while True:` batch loop (`create_subdivision_links_batch.py`,
`targeted_cleanup.py`): each iteration runs one batch query and continues
while the reported row count is positive.  `trace` lists, per iteration, the
query outcome and the count the database would report. -/
def whileBatchLoop (trace : List (Option String × Nat)) : Script :=
  match trace with
  | [] => skipS
  | (q, count) :: rest =>
      seqS (runQuery q) (if count > 0 then whileBatchLoop rest else skipS)

/-- `create_subdivision_links_batch.py`: connectivity check, the subdivision
MERGE query, the relationship batch loop, and the verification query, all in
`try/except print/finally close`. -/
def create_subdivision_links_batch_script (connect q1 : Option String)
    (trace : List (Option String × Nat)) (qverify : Option String) : Script :=
  tryExceptFinally
    (seqS (runQuery connect)
      (seqS (runQuery q1) (seqS (whileBatchLoop trace) (runQuery qverify))))
    printError closeConn

/-- `targeted_cleanup.py`: connectivity check, one batch-delete loop per
label, and the final count query, in `try/except print/finally close`. -/
def targeted_cleanup_script (connect : Option String)
    (traces : List (List (Option String × Nat))) (qcount : Option String) : Script :=
  tryExceptFinally
    (seqS (runQuery connect) (seqS (seqAll (traces.map whileBatchLoop)) (runQuery qcount)))
    printError closeConn

/-- The polling loop and follow-up of `wait_and_link.py`: poll for the
Jurisdiction node until found (then run the link and test queries) or until
the 20-minute clock ends the loop (then return). -/
def waitBody (polls : List (Option String × Bool)) (link qtest : Option String) : Script :=
  match polls with
  | [] => skipS
  | (q, found) :: rest =>
      seqS (runQuery q)
        (if found then seqS (runQuery link) (runQuery qtest) else waitBody rest link qtest)

/-- `wait_and_link.py`: connectivity check and the polling body, in
`try/except print/finally close`. -/
def wait_and_link_script (connect : Option String) (polls : List (Option String × Bool))
    (link qtest : Option String) : Script :=
  tryExceptFinally (seqS (runQuery connect) (waitBody polls link qtest)) printError closeConn

/-- `enrich_subdivisions_parcel_data.py` / `enrich_subdivisions_from_csv.py`
`main()`: the CSV read and every enrichment/verification operation run inside
`try/except print/finally enricher.close()`. -/
def enrich_main_script (ops : List (Option String)) : Script :=
  tryExceptFinally (seqAll (ops.map runQuery)) printError closeConn

/-- `extract_from_chunks.py` `main()`: chunk fetch, jurisdiction MERGE and
the per-result graph writes inside `try/finally driver.close()` — there is
no except clause. -/
def extract_main_script (fetch merge : Option String) (writes : List (Option String)) : Script :=
  tryFinallyS
    (seqS (runQuery fetch) (seqS (runQuery merge) (seqAll (writes.map runQuery))))
    closeConn

/-- `build_kg_from_pdf.build_knowledge_graph_from_pdf`: connect, one
`kg_builder.run_async` pipeline call, optional schema tracking, in
`try/finally` closing the clients; no retry loop of its own. -/
def build_kg_driver_script (connect pipeline track : Option String) : Script :=
  tryFinallyS (seqS (runQuery connect) (seqS (runQuery pipeline) (runQuery track))) closeConn

/-- `build_kg_from_pdf.main`: the driver call wrapped in the broad exception
handlers that log the error (and `sys.exit(1)`). -/
def build_kg_main_script (connect pipeline track : Option String) : Script :=
  tryExceptFinally (build_kg_driver_script connect pipeline track) printError skipS

/-! ## `enrich_subdivisions_parcel_data`: CSV loading and batched upserts -/

/-- A subdivision record as `load_csv_data` builds it. -/
structure ParcelRec where
  subdivision_id : String
  folio8 : String
  unit_count : Option Int
  legal_line : Option String
  legal_line_2 : Option String
  millage_code : Option String
  use_code : Option String
  situs_city : Option String
  situs_zip_code : Option String
deriving DecidableEq

/-- `row.get(col, '').strip()` on a CSV row (a `csv.DictReader` mapping). -/
def rowGet (row : List (String × String)) (k : String) : String :=
  pyStrip ((row.lookup k).getD "")

/-- `x if x else None`. -/
def strOpt (s : String) : Option String := if s = "" then Option.none else some s

/-- `int(unit_count) if unit_count else None`; `Except.error` models the
`ValueError` that `int()` raises on a malformed field and that would
propagate out of `load_csv_data` into `main`'s handler. -/
def unitCountOf (uc : String) : Except String (Option Int) :=
  if uc = "" then .ok Option.none
  else
    match parsePyInt uc with
    | some n => .ok (some n)
    | Option.none => .error "ValueError"

/-- The record stored for a qualifying CSV row. -/
def mkParcelRec (k folio8 : String) (uc : Option Int) (row : List (String × String)) :
    ParcelRec :=
  ⟨k, folio8, uc, strOpt (rowGet row "LEGAL_LINE"), strOpt (rowGet row "LEGAL_LINE_2"),
    strOpt (rowGet row "MILLAGE_CODE"), strOpt (rowGet row "USE_CODE"),
    strOpt (rowGet row "SITUS_CITY"), strOpt (rowGet row "SITUS_ZIP_CODE")⟩

/-- One iteration of `load_csv_data`'s row loop: rows whose stripped FOLIO8
is nonempty of length at least 8 contribute, keyed by the first 8 characters;
a key already present keeps its first record. -/
def loadCsvStep (m : List (String × ParcelRec)) (row : List (String × String)) :
    Except String (List (String × ParcelRec)) :=
  let folio8 := rowGet row "FOLIO8"
  if folio8 ≠ "" ∧ folio8.length ≥ 8 then
    let k := (folio8.data.take 8).asString
    if m.any (fun p => p.1 == k) then .ok m
    else
      match unitCountOf (rowGet row "UNIT_COUNT") with
      | .error e => .error e
      | .ok uc => .ok (m ++ [(k, mkParcelRec k folio8 uc row)])
  else .ok m

/-- `load_csv_data`: the insertion-ordered mapping from derived
subdivision id to the first qualifying row's record. -/
def load_csv_data (rows : List (List (String × String))) :
    Except String (List (String × ParcelRec)) :=
  rows.foldlM loadCsvStep []

/-- Whether a CSV row contributes to the mapping: its stripped FOLIO8 is
nonempty with length at least 8. -/
def rowQualifies (row : List (String × String)) : Bool :=
  decide (rowGet row "FOLIO8" ≠ "" ∧ (rowGet row "FOLIO8").length ≥ 8)

/-- The derived key of a CSV row: the first 8 characters of FOLIO8. -/
def rowKey (row : List (String × String)) : String :=
  ((rowGet row "FOLIO8").data.take 8).asString

/-- One iteration of the batch-accumulation loop of
`enrich_all_subdivisions`: append the record when its subdivision exists in
the database, flushing the batch once it reaches 1000 rows. -/
def enrichStep (existing : String → Bool)
    (st : List (List ParcelRec) × List ParcelRec) (p : String × ParcelRec) :
    List (List ParcelRec) × List ParcelRec :=
  if existing p.1 then
    let b := st.2 ++ [p.2]
    if b.length ≥ 1000 then (st.1 ++ [b], []) else (st.1, b)
  else st

def enrich_all_batches (m : List (String × ParcelRec)) (existing : String → Bool) :
    List (List ParcelRec) :=
  let fin := m.foldl (enrichStep existing) ([], [])
  if fin.2 ≠ [] then fin.1 ++ [fin.2] else fin.1

/-- `enrich_subdivision_batch` issues exactly one UNWIND query whose
`$batch` parameter is the whole batch. -/
structure UnwindCall where
  batch_rows : List ParcelRec
  query_count : Nat
deriving DecidableEq

def enrich_subdivision_batch (batch : List ParcelRec) : UnwindCall := ⟨batch, 1⟩

/-! ## `create_subdivision_links_batch`: the linking queries on a graph state

The graph as the two Cypher phases see it: parcels (their `parcel_id`
property, possibly null), the set of subdivision ids, and the BELONGS_TO
links from parcel (by index) to subdivision id. -/

/-- Cypher `substring(p.parcel_id, 0, 8)`. -/
def subdiv_of (pid : String) : String := (pid.data.take 8).asString

structure LinkState where
  parcels : List (Option String)
  subs : List String
  links : List (Nat × String)
deriving DecidableEq

/-- Whether parcel `i` has a BELONGS_TO link
(`exists((p)-[:BELONGS_TO]->(:Subdivision))`). -/
def isLinked (links : List (Nat × String)) (i : Nat) : Bool :=
  links.any (fun l => l.1 == i)

/-- The parcels matched by
`MATCH (p:Parcel) WHERE p.parcel_id IS NOT NULL AND NOT exists(...)`. -/
def unlinkedIdx (st : LinkState) : List Nat :=
  (List.range st.parcels.length).filter
    (fun i => (st.parcels.getD i Option.none).isSome && ! isLinked st.links i)

/-- Phase 1: `MERGE (s:Subdivision \x7bsubdivision_id: subdiv_id\x7d)` for
each distinct `substring(p.parcel_id, 0, 8)` over parcels with a non-null
id. -/
def phase1 (st : LinkState) : LinkState :=
  { st with
    subs :=
      (((st.parcels.filterMap id).map subdiv_of).dedup).foldl
        (fun subs d => if d ∈ subs then subs else subs ++ [d]) st.subs }

/-- One batch of phase 2: up to 10000 unlinked parcels, each
`MATCH (s:Subdivision \x7bsubdivision_id: subdiv_id\x7d)` then
`CREATE (p)-[:BELONGS_TO]->(s)`; a parcel whose subdivision is missing
produces no row. -/
def batchLinks (st : LinkState) : List (Nat × String) :=
  ((unlinkedIdx st).take 10000).filterMap
    (fun i =>
      match st.parcels.getD i Option.none with
      | some pid => if subdiv_of pid ∈ st.subs then some (i, subdiv_of pid) else Option.none
      | Option.none => Option.none)

/-- Phase 2: `while True:` run a batch; stop when it creates no
relationship (`if created > 0: ... else: break`). -/
def linkLoop (st : LinkState) : LinkState :=
  let newLinks := batchLinks st
  if h : 0 < newLinks.length then
    linkLoop { st with links := st.links ++ newLinks }
  else st
termination_by (unlinkedIdx st).length
decreasing_by
  have hsplit :
      (unlinkedIdx { st with links := st.links ++ batchLinks st })
        = (unlinkedIdx st).filter (fun i => ! isLinked (batchLinks st) i) := by
    simp only [unlinkedIdx, List.filter_filter]
    apply List.filter_congr
    intro i _
    simp only [isLinked, List.any_append]
    cases (st.parcels.getD i Option.none).isSome <;>
      cases st.links.any (fun l => l.1 == i) <;>
      cases (batchLinks st).any (fun l => l.1 == i) <;> rfl
  rw [hsplit]
  obtain ⟨p, hp⟩ := List.exists_mem_of_length_pos h
  obtain ⟨a, ha, hfa⟩ := List.mem_filterMap.mp hp
  have hai : p.1 = a := by
    rcases hg : st.parcels.getD a Option.none with _ | pid <;> rw [hg] at hfa
    · exact absurd hfa (by simp)
    · by_cases hc : subdiv_of pid ∈ st.subs
      · simp only [hc, if_pos] at hfa
        cases hfa; rfl
      · simp [hc] at hfa
  apply List.length_filter_lt_length_iff_exists.mpr
  refine ⟨a, List.take_subset _ _ ha, ?_⟩
  have : (batchLinks st).any (fun l => l.1 == a) = true :=
    List.any_eq_true.mpr ⟨p, hp, by simp [hai]⟩
  simp [isLinked, this]

/-- The whole of `create_subdivision_links_batch`: phase 1 then the phase-2
loop. -/
def create_subdivision_links_model (st : LinkState) : LinkState :=
  linkLoop (phase1 st)

/-! # Helper lemmas -/

theorem flatMap_eq_nil_of {α β : Type} {l : List α} {f : α → List β}
    (h : ∀ a ∈ l, f a = []) : l.flatMap f = [] := by
  induction l with
  | nil => rfl
  | cons x xs ih =>
      rw [List.flatMap_cons, h x (by simp), List.nil_append]
      exact ih (fun a ha => h a (by simp [ha]))

/-- Generic safety of the `try/except print/finally close` pattern: whatever
the body does, the script swallows the exception, closes the connection, and
prints the error whenever the body raised. -/
theorem tryExceptFinally_safe (body : Script) (s : PyState) :
    ((tryExceptFinally body printError closeConn) s).1 = Option.none ∧
    ((tryExceptFinally body printError closeConn) s).2.connOpen = false ∧
    (∀ e, (body s).1 = some e →
      ((tryExceptFinally body printError closeConn) s).2.printedError = true) := by
  unfold tryExceptFinally printError closeConn
  rcases h : body s with ⟨e, s₁⟩
  cases e <;> simp

/-- Generic behavior of `try/finally close` with no except clause: the
connection closes, and the body's exception propagates. -/
theorem tryFinallyS_close (body : Script) (s : PyState) :
    ((tryFinallyS body closeConn) s).2.connOpen = false ∧
    ((tryFinallyS body closeConn) s).1 = (body s).1 := by
  unfold tryFinallyS closeConn
  rcases h : body s with ⟨e, s₁⟩
  cases e <;> simp

/-! # Claim theorems -/

/-- **C10.** The `SchemaManager` public operations never propagate an
exception: for every oracle outcome, `store_schema_version` and
`export_schema` return a boolean — `False` (logging the error) when the
database query or file access raises, `True` only after success — and
`get_current_schema_version` and `load_schema_from_file` return `None`
(logging the error) when their query, record decoding, or file read
raises. -/
theorem C10_schema_manager_ops_never_raise :
    (∀ schema version desc e,
      (store_schema_version schema version desc (.error e)).returned = false ∧
      (store_schema_version schema version desc (.error e)).logged_error = true) ∧
    (∀ schema version desc,
      (store_schema_version schema version desc (.ok ())).returned = true ∧
      (store_schema_version schema version desc (.ok ())).logged_error = false) ∧
    (∀ msg, get_current_schema_version (.raised msg) = (Option.none, true)) ∧
    get_current_schema_version .empty = (Option.none, false) ∧
    (∀ v, get_current_schema_version (.found v) = (some v, false)) ∧
    (∀ msg w, export_schema (.raised msg) w = (false, true)) ∧
    (∀ w, export_schema .empty w = (false, true)) ∧
    (∀ v e, export_schema (.found v) (.error e) = (false, true)) ∧
    (∀ v, export_schema (.found v) (.ok ()) = (true, false)) ∧
    (∀ v, load_schema_from_file (.ok v) = (some v, false)) ∧
    (∀ e, load_schema_from_file (.error e) = (Option.none, true)) :=
  ⟨fun _ _ _ _ => ⟨rfl, rfl⟩, fun _ _ _ => ⟨rfl, rfl⟩, fun _ => rfl, rfl, fun _ => rfl,
    fun _ _ => rfl, fun _ => rfl, fun _ _ => rfl, fun _ => rfl, fun _ => rfl, fun _ => rfl⟩

set_option maxRecDepth 10000 in
/-- **C2 (counterexample).** The hash `_calculate_schema_hash` computes is
not the hex digest of the SHA-256 of the schema's sorted-keys JSON
serialization: at the concrete schema `sampleSchema` the two differ (the
code keeps only the first 16 of the 64 hex characters). -/
theorem C2_hash_differs_from_full_digest :
    _calculate_schema_hash sampleSchema ≠ specSchemaHashFull sampleSchema := by
  decide

/-- **C2 (amended).** The schema hash computed by `_calculate_schema_hash`
(and passed as the `schema_hash` query parameter by `store_schema_version`)
is the first 16 characters of the hex digest of SHA-256 applied to
`json.dumps` of the schema with sorted keys. -/
theorem C2_hash_is_truncated_digest :
    (∀ schema : PyVal,
      (_calculate_schema_hash schema).data = (specSchemaHashFull schema).data.take 16) ∧
    (∀ schema version desc db,
      (store_schema_version schema version desc db).params.schema_hash =
        _calculate_schema_hash (.dict schema)) :=
  ⟨fun _ => rfl, fun _ _ _ db => by cases db <;> rfl⟩

/-- **C3 (counterexample).** Not every script wraps its body in a broad
exception handler with a `finally` close: the module body of
`check_parcel_subdiv.py` has no handler at all, so when its query raises,
the exception propagates unprinted and the connection is never closed. -/
theorem C3_check_parcel_subdiv_leaks_connection :
    (check_parcel_subdiv_script (some "ServiceUnavailable") initState).2.connOpen = true ∧
    (check_parcel_subdiv_script (some "ServiceUnavailable") initState).1 =
      some "ServiceUnavailable" ∧
    (check_parcel_subdiv_script (some "ServiceUnavailable") initState).2.printedError =
      false :=
  ⟨rfl, rfl, rfl⟩

/-- **C3 (amended).** The batch/enrichment/polling scripts
(`create_subdivision_links_batch.py`, `targeted_cleanup.py`,
`wait_and_link.py`, the two `enrich_subdivisions_*` mains) wrap their bodies
in a broad handler and close the connection in a `finally` block on every
path, printing the error when any operation raises; `extract_from_chunks.py`
closes in a `finally` but has no except clause, so its exception
propagates; and `check_parcel_subdiv.py` has neither — it closes the
connection only on the success path. -/
theorem C3_error_handling_per_script :
    (∀ connect q1 trace qverify s,
      (create_subdivision_links_batch_script connect q1 trace qverify s).1 = Option.none ∧
      (create_subdivision_links_batch_script connect q1 trace qverify s).2.connOpen = false) ∧
    (∀ e q1 trace qverify s,
      (create_subdivision_links_batch_script (some e) q1 trace qverify s).2.printedError =
        true) ∧
    (∀ connect traces qcount s,
      (targeted_cleanup_script connect traces qcount s).1 = Option.none ∧
      (targeted_cleanup_script connect traces qcount s).2.connOpen = false) ∧
    (∀ connect polls link qtest s,
      (wait_and_link_script connect polls link qtest s).1 = Option.none ∧
      (wait_and_link_script connect polls link qtest s).2.connOpen = false) ∧
    (∀ ops s,
      (enrich_main_script ops s).1 = Option.none ∧
      (enrich_main_script ops s).2.connOpen = false) ∧
    (∀ e ops s, (enrich_main_script (some e :: ops) s).2.printedError = true) ∧
    (∀ fetch merge writes s,
      (extract_main_script fetch merge writes s).2.connOpen = false) ∧
    (∀ e merge writes s,
      (extract_main_script (some e) merge writes s).1 = some e ∧
      (extract_main_script (some e) merge writes s).2.printedError = s.printedError) ∧
    (∀ q, (check_parcel_subdiv_script (some q) initState).2.connOpen = true) ∧
    (check_parcel_subdiv_script Option.none initState).2.connOpen = false := by
  refine ⟨?_, ?_, ?_, ?_, ?_, ?_, ?_, ?_, fun _ => rfl, rfl⟩
  · intro connect q1 trace qverify s
    have h := tryExceptFinally_safe
      (seqS (runQuery connect)
        (seqS (runQuery q1) (seqS (whileBatchLoop trace) (runQuery qverify)))) s
    exact ⟨h.1, h.2.1⟩
  · intro e q1 trace qverify s
    have h := tryExceptFinally_safe
      (seqS (runQuery (some e))
        (seqS (runQuery q1) (seqS (whileBatchLoop trace) (runQuery qverify)))) s
    exact h.2.2 e rfl
  · intro connect traces qcount s
    have h := tryExceptFinally_safe
      (seqS (runQuery connect) (seqS (seqAll (traces.map whileBatchLoop)) (runQuery qcount))) s
    exact ⟨h.1, h.2.1⟩
  · intro connect polls link qtest s
    have h := tryExceptFinally_safe (seqS (runQuery connect) (waitBody polls link qtest)) s
    exact ⟨h.1, h.2.1⟩
  · intro ops s
    have h := tryExceptFinally_safe (seqAll (ops.map runQuery)) s
    exact ⟨h.1, h.2.1⟩
  · intro e ops s
    have h := tryExceptFinally_safe (seqAll ((some e :: ops).map runQuery)) s
    exact h.2.2 e rfl
  · intro fetch merge writes s
    exact (tryFinallyS_close
      (seqS (runQuery fetch) (seqS (runQuery merge) (seqAll (writes.map runQuery)))) s).1
  · intro e merge writes s
    constructor
    · exact (tryFinallyS_close
        (seqS (runQuery (some e)) (seqS (runQuery merge) (seqAll (writes.map runQuery)))) s).2
    · rfl

/-- **C7.** The PDF-build driver has no retry loop of its own: retry/backoff
is a single `RetryRateLimitHandler` whose parameters come from the
environment variables `RATE_LIMIT_MAX_ATTEMPTS`, `RATE_LIMIT_MIN_WAIT`,
`RATE_LIMIT_MAX_WAIT`, `RATE_LIMIT_MULTIPLIER` with defaults 5, 2.0, 120.0,
2.0, and that same handler is passed to both the LLM and the embedder; the
driver body issues each request at most once, and in the loop-bearing
scripts a failed request ends the loop immediately — no script re-issues a
failed request. -/
theorem C7_retry_delegated_to_library :
    (∀ env,
      RATE_LIMIT_MAX_ATTEMPTS env = parsePyInt ((env "RATE_LIMIT_MAX_ATTEMPTS").getD "5") ∧
      RATE_LIMIT_MIN_WAIT env = parsePyFloat ((env "RATE_LIMIT_MIN_WAIT").getD "2.0") ∧
      RATE_LIMIT_MAX_WAIT env = parsePyFloat ((env "RATE_LIMIT_MAX_WAIT").getD "120.0") ∧
      RATE_LIMIT_MULTIPLIER env = parsePyFloat ((env "RATE_LIMIT_MULTIPLIER").getD "2.0")) ∧
    (∀ env, env "RATE_LIMIT_MAX_ATTEMPTS" = Option.none →
      env "RATE_LIMIT_MIN_WAIT" = Option.none →
      env "RATE_LIMIT_MAX_WAIT" = Option.none →
      env "RATE_LIMIT_MULTIPLIER" = Option.none →
      build_kg_clients env = some ⟨⟨5, 2, 120, 2, true⟩, ⟨5, 2, 120, 2, true⟩⟩) ∧
    (∀ env c, build_kg_clients env = some c → c.llm_handler = c.embedder_handler) ∧
    (∀ e count rest s,
      whileBatchLoop ((some e, count) :: rest) s =
        (some e, { s with queriesStarted := s.queriesStarted + 1 })) ∧
    (∀ e found rest link qtest s,
      waitBody ((some e, found) :: rest) link qtest s =
        (some e, { s with queriesStarted := s.queriesStarted + 1 })) ∧
    (∀ connect pipeline track s,
      ((build_kg_main_script connect pipeline track) s).2.queriesStarted ≤
        s.queriesStarted + 3) := by
  refine ⟨fun env => ⟨rfl, rfl, rfl, rfl⟩, ?_, ?_, fun _ _ _ _ => rfl, fun _ _ _ _ _ _ => rfl, ?_⟩
  · intro env h1 h2 h3 h4
    simp only [build_kg_clients, rateLimitConfig, RATE_LIMIT_MAX_ATTEMPTS,
      RATE_LIMIT_MIN_WAIT, RATE_LIMIT_MAX_WAIT, RATE_LIMIT_MULTIPLIER, os_getenv,
      h1, h2, h3, h4]
    decide
  · intro env c h
    unfold build_kg_clients at h
    rcases hr : rateLimitConfig env with _ | handler <;> rw [hr] at h
    · cases h
    · cases c
      injection h with h
      cases h
      rfl
  · intro connect pipeline track s
    cases connect <;> cases pipeline <;> cases track <;>
      simp [build_kg_main_script, build_kg_driver_script, tryExceptFinally, tryFinallyS,
        seqS, runQuery, printError, closeConn, skipS]

/-- Witness for C7: with none of the four variables set, the driver builds
the default handler (5 attempts, 2.0-120.0 s waits, multiplier 2.0) and
attaches it to both clients. -/
theorem C7_retry_delegated_to_library_witness :
    build_kg_clients (fun _ => Option.none) =
      some ⟨⟨5, 2, 120, 2, true⟩, ⟨5, 2, 120, 2, true⟩⟩ :=
  C7_retry_delegated_to_library.2.1 (fun _ => Option.none) rfl rfl rfl rfl

/-- In an association list with pairwise-distinct keys, membership determines
the lookup. -/
theorem lookup_of_mem_nodupKeys {β : Type} {l : List (String × β)} {k : String} {v : β}
    (hnd : l.Pairwise (fun p q => p.1 ≠ q.1)) (hm : (k, v) ∈ l) :
    l.lookup k = some v := by
  induction l with
  | nil => cases hm
  | cons p rest ih =>
      obtain ⟨pk, pv⟩ := p
      rcases List.mem_cons.mp hm with h | h
      · cases h
        simp [List.lookup_cons]
      · have hk : pk ≠ k := (List.pairwise_cons.mp hnd).1 (k, v) h
        have hbeq : (k == pk) = false := beq_eq_false_iff_ne.mpr (Ne.symm hk)
        rw [List.lookup_cons, hbeq]
        exact ih (List.pairwise_cons.mp hnd).2 h

/-- A successful lookup comes from an actual entry. -/
theorem mem_of_lookup_eq_some {β : Type} {l : List (String × β)} {k : String} {v : β}
    (h : l.lookup k = some v) : (k, v) ∈ l := by
  induction l with
  | nil => simp [List.lookup] at h
  | cons p rest ih =>
      obtain ⟨pk, pv⟩ := p
      rw [List.lookup_cons] at h
      by_cases hk : k = pk
      · subst hk
        simp only [beq_self_eq_true] at h
        cases h
        exact List.mem_cons_self _ _
      · have hbeq : (k == pk) = false := beq_eq_false_iff_ne.mpr hk
        rw [hbeq] at h
        exact List.mem_cons_of_mem _ (ih h)

/-- `dictInsert` preserves distinctness of keys. -/
theorem dictInsert_nodupKeys {m : List (String × PyVal)} {k : String} {v : PyVal}
    (h : m.Pairwise (fun p q => p.1 ≠ q.1)) :
    (dictInsert m k v).Pairwise (fun p q => p.1 ≠ q.1) := by
  unfold dictInsert
  split
  · rw [List.pairwise_map]
    refine h.imp_of_mem ?_
    intro a b _ _ hne
    have ha : (if a.1 == k then (k, v) else a).1 = a.1 := by
      by_cases hp : a.1 = k
      · simp [hp]
      · simp [beq_eq_false_iff_ne.mpr hp]
    have hb : (if b.1 == k then (k, v) else b).1 = b.1 := by
      by_cases hp : b.1 = k
      · simp [hp]
      · simp [beq_eq_false_iff_ne.mpr hp]
    rw [ha, hb]
    exact hne
  · rw [List.pairwise_append]
    refine ⟨h, List.pairwise_singleton _ _, ?_⟩
    intro p hp q hq
    rcases List.mem_singleton.mp hq with rfl
    intro hk
    rename_i hnone
    exact hnone (List.any_eq_true.mpr ⟨p, hp, by simp [hk]⟩)

/-- The node-label map built by `compare_schemas` has distinct keys. -/
theorem buildNodeMap_nodupKeys (nts : List PyVal) :
    (buildNodeMap nts).Pairwise (fun p q => p.1 ≠ q.1) := by
  unfold buildNodeMap
  suffices h : ∀ (l : List PyVal) (m : List (String × PyVal)),
      m.Pairwise (fun p q => p.1 ≠ q.1) →
      (l.foldl (fun m nt => dictInsert m (_get_label nt) nt) m).Pairwise
        (fun p q => p.1 ≠ q.1) from h nts [] List.Pairwise.nil
  intro l
  induction l with
  | nil => intro m hm; exact hm
  | cons nt rest ih => intro m hm; exact ih _ (dictInsert_nodupKeys hm)

/-- Comparing a schema with itself yields no changes. -/
theorem compare_schemas_self (S : SchemaD) : compare_schemas S S = [] := by
  unfold compare_schemas
  simp only [List.append_eq_nil]
  refine ⟨⟨⟨⟨⟨?_, ?_⟩, ?_⟩, ?_⟩, ?_⟩, ?_⟩
  · apply flatMap_eq_nil_of
    intro p hp
    rw [lookup_of_mem_nodupKeys (buildNodeMap_nodupKeys _) (by simpa using hp)]
    simp
  · apply flatMap_eq_nil_of
    intro p hp
    rw [lookup_of_mem_nodupKeys (buildNodeMap_nodupKeys _) (by simpa using hp)]
    simp
  · exact flatMap_eq_nil_of (fun r hr => by simp [hr])
  · exact flatMap_eq_nil_of (fun r hr => by simp [hr])
  · exact flatMap_eq_nil_of (fun p hp => by simp [hp])
  · exact flatMap_eq_nil_of (fun p hp => by simp [hp])

/-- **C9.** Comparing a schema with itself (relationship types and patterns
being hashable — strings and string triples) yields no changes, and
consequently `track_schema_automatically` neither stores a new version nor
increments the version when the schema equals the stored one. -/
theorem C9_self_compare_empty_and_no_version_bump :
    (∀ S : SchemaD, compare_schemas S S = []) ∧
    (∀ sv version desc ai,
      track_schema_automatically true (some sv) (storedSchemaOf sv) version desc ai =
        .unchanged sv.version) := by
  refine ⟨compare_schemas_self, ?_⟩
  intro sv version desc ai
  unfold track_schema_automatically
  simp [compare_schemas_self]

/-- Flattening the consecutive `chunks[i : i + batch_size]` slices starting
at `s` gives back `batch_size * k` elements of the original list. -/
theorem range'_chunk_flatten {α : Type} (k : Nat) :
    ∀ (s : Nat) (l : List α),
      ((List.range' s k extract_batch_size).map
        (fun i => (l.drop i).take extract_batch_size)).flatten =
      (l.drop s).take (extract_batch_size * k) := by
  induction k with
  | zero => intro s l; simp
  | succ k ih =>
      intro s l
      rw [List.range'_succ, List.map_cons, List.flatten_cons, ih (s + extract_batch_size) l,
        ← List.drop_drop]
      have h : extract_batch_size * (k + 1) = extract_batch_size + extract_batch_size * k := by
        ring
      rw [h, List.take_add]

/-- The batches of `extract_from_chunks.main` concatenate back to the chunk
list. -/
theorem extract_batches_flatten {α : Type} (chunks : List α) :
    (extract_batches chunks).flatten = chunks := by
  unfold extract_batches
  rw [range'_chunk_flatten]
  simp only [List.drop_zero]
  apply List.take_of_length_le
  have h := Nat.div_add_mod (chunks.length + extract_batch_size - 1) extract_batch_size
  have h2 : (chunks.length + extract_batch_size - 1) % extract_batch_size <
      extract_batch_size := Nat.mod_lt _ (by norm_num [extract_batch_size])
  unfold extract_batch_size at *
  omega

/-- Every batch is nonempty and holds at most `batch_size` chunks. -/
theorem extract_batches_sizes {α : Type} (chunks : List α) :
    ((extract_batches chunks).all
      (fun b => decide (b.length ≤ extract_batch_size) && decide (1 ≤ b.length))) = true := by
  rw [List.all_eq_true]
  intro b hb
  obtain ⟨i, hi, rfl⟩ := List.mem_map.mp hb
  obtain ⟨j, hj, rfl⟩ := List.mem_range'.mp hi
  have h := Nat.div_add_mod (chunks.length + extract_batch_size - 1) extract_batch_size
  have h2 : (chunks.length + extract_batch_size - 1) % extract_batch_size <
      extract_batch_size := Nat.mod_lt _ (by norm_num [extract_batch_size])
  have hlen : ((chunks.drop (0 + extract_batch_size * j)).take extract_batch_size).length =
      min extract_batch_size (chunks.length - (0 + extract_batch_size * j)) := by
    rw [List.length_take, List.length_drop]
  have hj10 : extract_batch_size * j < chunks.length := by
    unfold extract_batch_size at *
    omega
  simp only [Bool.and_eq_true, decide_eq_true_eq]
  rw [hlen]
  unfold extract_batch_size at *
  omega

/-- Every batch except possibly the last holds exactly `batch_size`
chunks. -/
theorem extract_batches_full {α : Type} (chunks : List α) :
    ((List.range ((extract_batches chunks).length - 1)).all
      (fun i => ((extract_batches chunks).getD i []).length == extract_batch_size)) = true := by
  rw [List.all_eq_true]
  intro i hi
  rw [List.mem_range] at hi
  have hlenb : (extract_batches chunks).length =
      (chunks.length + extract_batch_size - 1) / extract_batch_size := by
    unfold extract_batches
    rw [List.length_map, List.length_range']
  rw [hlenb] at hi
  have h := Nat.div_add_mod (chunks.length + extract_batch_size - 1) extract_batch_size
  have h2 : (chunks.length + extract_batch_size - 1) % extract_batch_size <
      extract_batch_size := Nat.mod_lt _ (by norm_num [extract_batch_size])
  have hikr : i < (chunks.length + extract_batch_size - 1) / extract_batch_size := by omega
  unfold extract_batches
  rw [List.getD_eq_getElem?_getD, List.getElem?_map, List.getElem?_range' _ _ hikr]
  simp only [Option.map_some', Option.getD_some]
  rw [beq_iff_eq, List.length_take, List.length_drop]
  unfold extract_batch_size at *
  omega

/-- Per-batch filtering of gather results is per-chunk filtering of the
whole list. -/
theorem flatMap_filterMap_flatten {α β : Type} (bs : List (List α)) (g : α → Option β) :
    bs.flatMap (fun b => b.filterMap g) = bs.flatten.filterMap g := by
  rw [List.filterMap_flatten]
  induction bs with
  | nil => rfl
  | cons b rest ih => rw [List.flatMap_cons, List.map_cons, List.flatten_cons, ih]

/-- **C5.** In `extract_from_chunks`, chunks are processed in consecutive
batches of 10 fanned out with `asyncio.gather`; `process_chunk` never
propagates an exception — on an LLM or JSON-decoding error it prints the
error and returns `None` — and the caller skips falsy results, so a failed
chunk is dropped (processed once, no retry) while every other chunk of every
batch is still processed. -/
theorem C5_batched_extraction_drops_failures :
    (∀ m, process_chunk (.llmError m) = (Option.none, true)) ∧
    (∀ m, process_chunk (.jsonError m) = (Option.none, true)) ∧
    (∀ d, process_chunk (.ok d) = (some d, false)) ∧
    (∀ (α : Type) (chunks : List α),
      (extract_batches chunks).flatten = chunks ∧
      ((extract_batches chunks).all
        (fun b => decide (b.length ≤ extract_batch_size) && decide (1 ≤ b.length))) = true ∧
      ((List.range ((extract_batches chunks).length - 1)).all
        (fun i => ((extract_batches chunks).getD i []).length == extract_batch_size)) =
        true) ∧
    (∀ (α : Type) (chunks : List α) (oracle : α → LLMOutcome),
      extract_processed chunks oracle =
        chunks.filterMap (fun c => successValue (oracle c))) := by
  refine ⟨fun _ => rfl, fun _ => rfl, fun _ => rfl,
    fun α chunks =>
      ⟨extract_batches_flatten _, extract_batches_sizes _, extract_batches_full _⟩, ?_⟩
  intro α chunks oracle
  unfold extract_processed
  simp only [List.filterMap_map]
  rw [flatMap_filterMap_flatten, extract_batches_flatten]
  rfl

/-- **C1.** `compare_schemas` returns exactly the set differences over the
three collections: an `added` change for each entry present only in the new
schema, a `removed` change for each entry present only in the old one, and —
for the label-keyed node types, the only collection whose entries carry a
definition distinct from their key — a `modified` change for each label
present in both whose definition differs.  (For relationship types and
patterns an entry present in both is its own definition, so no `modified`
change can arise, as the completeness direction of this characterization
states.) -/
theorem C1_compare_schemas_set_difference :
    ∀ (old_schema new_schema : SchemaD) (c : SchemaChange),
      c ∈ compare_schemas old_schema new_schema ↔
        ((∃ label nt,
            (buildNodeMap new_schema.node_types).lookup label = some nt ∧
            (buildNodeMap old_schema.node_types).lookup label = Option.none ∧
            c = ⟨"added", "node_type", label, .dict [("node_type", nt)]⟩) ∨
         (∃ label ont nnt,
            (buildNodeMap old_schema.node_types).lookup label = some ont ∧
            (buildNodeMap new_schema.node_types).lookup label = some nnt ∧
            ont ≠ nnt ∧
            c = ⟨"modified", "node_type", label, .dict [("old", ont), ("new", nnt)]⟩) ∨
         (∃ label nt,
            (buildNodeMap old_schema.node_types).lookup label = some nt ∧
            (buildNodeMap new_schema.node_types).lookup label = Option.none ∧
            c = ⟨"removed", "node_type", label, .dict []⟩) ∨
         (∃ r, r ∈ new_schema.relationship_types ∧ r ∉ old_schema.relationship_types ∧
            c = ⟨"added", "relationship_type", r, .dict []⟩) ∨
         (∃ r, r ∈ old_schema.relationship_types ∧ r ∉ new_schema.relationship_types ∧
            c = ⟨"removed", "relationship_type", r, .dict []⟩) ∨
         (∃ p, p ∈ new_schema.patterns ∧ p ∉ old_schema.patterns ∧
            c = ⟨"added", "pattern", patternName p, .dict [("pattern", patternVal p)]⟩) ∨
         (∃ p, p ∈ old_schema.patterns ∧ p ∉ new_schema.patterns ∧
            c = ⟨"removed", "pattern", patternName p, .dict []⟩)) := by
  intro o n c
  unfold compare_schemas
  simp only [List.mem_append, List.mem_flatMap, List.mem_dedup]
  constructor
  · rintro (((((h | h) | h) | h) | h) | h)
    · obtain ⟨⟨l, v⟩, hp, hc⟩ := h
      split at hc
      · rename_i hlk
        exact Or.inl ⟨l, v, lookup_of_mem_nodupKeys (buildNodeMap_nodupKeys _) hp, hlk,
          by simpa using hc⟩
      · rename_i ont hlk
        split at hc
        · rename_i hne
          exact Or.inr (Or.inl ⟨l, ont, v, hlk,
            lookup_of_mem_nodupKeys (buildNodeMap_nodupKeys _) hp, hne, by simpa using hc⟩)
        · cases hc
    · obtain ⟨⟨l, v⟩, hp, hc⟩ := h
      split at hc
      · rename_i hnone
        exact Or.inr (Or.inr (Or.inl ⟨l, v,
          lookup_of_mem_nodupKeys (buildNodeMap_nodupKeys _) hp,
          Option.isNone_iff_eq_none.mp hnone, by simpa using hc⟩))
      · cases hc
    · obtain ⟨r, hr, hc⟩ := h
      split at hc
      · cases hc
      · rename_i hm
        exact Or.inr (Or.inr (Or.inr (Or.inl ⟨r, hr, hm, by simpa using hc⟩)))
    · obtain ⟨r, hr, hc⟩ := h
      split at hc
      · cases hc
      · rename_i hm
        exact Or.inr (Or.inr (Or.inr (Or.inr (Or.inl ⟨r, hr, hm, by simpa using hc⟩))))
    · obtain ⟨p, hp, hc⟩ := h
      split at hc
      · cases hc
      · rename_i hm
        exact Or.inr (Or.inr (Or.inr (Or.inr (Or.inr (Or.inl
          ⟨p, hp, hm, by simpa using hc⟩)))))
    · obtain ⟨p, hp, hc⟩ := h
      split at hc
      · cases hc
      · rename_i hm
        exact Or.inr (Or.inr (Or.inr (Or.inr (Or.inr (Or.inr
          ⟨p, hp, hm, by simpa using hc⟩)))))
  · rintro (⟨l, v, hnew, hold, rfl⟩ | ⟨l, ont, nnt, hold, hnew, hne, rfl⟩ |
      ⟨l, v, hold, hnew, rfl⟩ | ⟨r, hr, hm, rfl⟩ | ⟨r, hr, hm, rfl⟩ |
      ⟨p, hp, hm, rfl⟩ | ⟨p, hp, hm, rfl⟩)
    · exact Or.inl (Or.inl (Or.inl (Or.inl (Or.inl
        ⟨(l, v), mem_of_lookup_eq_some hnew, by rw [hold]; simp⟩))))
    · exact Or.inl (Or.inl (Or.inl (Or.inl (Or.inl
        ⟨(l, nnt), mem_of_lookup_eq_some hnew, by rw [hold]; simp [hne]⟩))))
    · refine Or.inl (Or.inl (Or.inl (Or.inl (Or.inr
        ⟨(l, v), mem_of_lookup_eq_some hold, ?_⟩))))
      rw [hnew]
      simp
    · exact Or.inl (Or.inl (Or.inl (Or.inr ⟨r, hr, by simp [hm]⟩)))
    · exact Or.inl (Or.inl (Or.inr ⟨r, hr, by simp [hm]⟩))
    · exact Or.inl (Or.inr ⟨p, hp, by simp [hm]⟩)
    · exact Or.inr ⟨p, hp, by simp [hm]⟩

theorem strLt_asymm (a : List Char) : ∀ b, strLt a b = true → strLt b a = false := by
  induction a with
  | nil =>
      intro b h
      cases b with
      | nil => simpa [strLt] using h
      | cons y ys => rfl
  | cons x xs ih =>
      intro b h
      cases b with
      | nil => simp [strLt] at h
      | cons y ys =>
          simp only [strLt] at h ⊢
          by_cases hxy : x.toNat < y.toNat
          · have hyx : ¬ y.toNat < x.toNat := by omega
            rw [if_neg hyx, if_pos hxy]
          · rw [if_neg hxy] at h
            by_cases hyx : y.toNat < x.toNat
            · rw [if_pos hyx] at h
              exact absurd h (by simp)
            · rw [if_neg hyx] at h
              rw [if_neg hyx, if_neg hxy]
              exact ih ys h

theorem strLt_false_trans (a : List Char) : ∀ b c, strLt a b = false → strLt b c = false →
    strLt a c = false := by
  induction a with
  | nil =>
      intro b c h1 h2
      cases b with
      | nil => exact h2
      | cons y ys => simp [strLt] at h1
  | cons x xs ih =>
      intro b c h1 h2
      cases b with
      | nil =>
          cases c with
          | nil => rfl
          | cons z zs => simp [strLt] at h2
      | cons y ys =>
          cases c with
          | nil => rfl
          | cons z zs =>
              simp only [strLt] at h1 h2 ⊢
              by_cases hxy : x.toNat < y.toNat
              · rw [if_pos hxy] at h1
                exact absurd h1 (by simp)
              · rw [if_neg hxy] at h1
                by_cases hyz : y.toNat < z.toNat
                · rw [if_pos hyz] at h2
                  exact absurd h2 (by simp)
                · rw [if_neg hyz] at h2
                  have hxz : ¬ x.toNat < z.toNat := by omega
                  rw [if_neg hxz]
                  by_cases hzx : z.toNat < x.toNat
                  · rw [if_pos hzx]
                  · rw [if_neg hzx]
                    have hyx : ¬ y.toNat < x.toNat := by omega
                    have hzy : ¬ z.toNat < y.toNat := by omega
                    rw [if_neg hyx] at h1
                    rw [if_neg hzy] at h2
                    exact ih ys zs h1 h2

theorem strLt_false_eq (a : List Char) : ∀ b, strLt a b = false → strLt b a = false →
    a = b := by
  induction a with
  | nil =>
      intro b h1 _
      cases b with
      | nil => rfl
      | cons y ys => simp [strLt] at h1
  | cons x xs ih =>
      intro b h1 h2
      cases b with
      | nil => simp [strLt] at h2
      | cons y ys =>
          simp only [strLt] at h1 h2
          by_cases hxy : x.toNat < y.toNat
          · rw [if_pos hxy] at h1
            exact absurd h1 (by simp)
          · rw [if_neg hxy] at h1
            by_cases hyx : y.toNat < x.toNat
            · rw [if_pos hyx] at h2
              exact absurd h2 (by simp)
            · rw [if_neg hyx] at h1
              rw [if_neg hyx, if_neg hxy] at h2
              have hnat : x.toNat = y.toNat := by omega
              have hchar : x = y := Char.ext (UInt32.ext hnat)
              rw [hchar, ih ys h1 h2]

theorem pyStrLe_total (a b : String) : pyStrLe a b = true ∨ pyStrLe b a = true := by
  unfold pyStrLe
  rcases h : strLt b.data a.data with _ | _
  · left; rfl
  · right
    rw [strLt_asymm _ _ h]
    rfl

theorem pyStrLe_trans {a b c : String} (h1 : pyStrLe a b = true) (h2 : pyStrLe b c = true) :
    pyStrLe a c = true := by
  unfold pyStrLe at *
  rw [Bool.not_eq_true'] at h1 h2 ⊢
  exact strLt_false_trans _ _ _ h2 h1

theorem pyStrLe_antisymm {a b : String} (h1 : pyStrLe a b = true) (h2 : pyStrLe b a = true) :
    a = b := by
  unfold pyStrLe at *
  rw [Bool.not_eq_true'] at h1 h2
  exact String.ext (strLt_false_eq _ _ h2 h1)

theorem insertEntry_perm (p : String × List Char) (l : List (String × List Char)) :
    (insertEntry p l).Perm (p :: l) := by
  induction l with
  | nil => exact List.Perm.refl _
  | cons q rest ih =>
      unfold insertEntry
      split
      · exact List.Perm.refl _
      · exact (ih.cons q).trans (List.Perm.swap p q rest)

theorem sortEntries_perm (l : List (String × List Char)) : (sortEntries l).Perm l := by
  induction l with
  | nil => exact List.Perm.refl _
  | cons p rest ih =>
      unfold sortEntries
      exact (insertEntry_perm p (sortEntries rest)).trans (ih.cons p)

theorem insertEntry_pairwise (p : String × List Char) (l : List (String × List Char))
    (h : l.Pairwise (fun a b => pyStrLe a.1 b.1 = true)) :
    (insertEntry p l).Pairwise (fun a b => pyStrLe a.1 b.1 = true) := by
  induction l with
  | nil => exact List.pairwise_singleton _ _
  | cons q rest ih =>
      unfold insertEntry
      obtain ⟨hq, hrest⟩ := List.pairwise_cons.mp h
      split
      · rename_i hle
        refine List.pairwise_cons.mpr ⟨?_, h⟩
        intro a ha
        rcases List.mem_cons.mp ha with rfl | ha'
        · exact hle
        · exact pyStrLe_trans hle (hq a ha')
      · rename_i hnle
        have hqp : pyStrLe q.1 p.1 = true := by
          rcases pyStrLe_total p.1 q.1 with h' | h'
          · exact absurd h' hnle
          · exact h'
        refine List.pairwise_cons.mpr ⟨?_, ih hrest⟩
        intro a ha
        have := (insertEntry_perm p rest).mem_iff.mp ha
        rcases List.mem_cons.mp this with rfl | ha'
        · exact hqp
        · exact hq a ha'

theorem sortEntries_pairwise (l : List (String × List Char)) :
    (sortEntries l).Pairwise (fun a b => pyStrLe a.1 b.1 = true) := by
  induction l with
  | nil => exact List.Pairwise.nil
  | cons p rest ih => exact insertEntry_pairwise p _ ih

/-- Two entry lists that are permutations of each other with distinct keys
sort to the same list. -/
theorem sortEntries_eq_of_perm (l₁ l₂ : List (String × List Char)) (h : l₁.Perm l₂)
    (hnd : (l₁.map Prod.fst).Nodup) : sortEntries l₁ = sortEntries l₂ := by
  haveI : IsAntisymm (String × List Char)
      (fun a b => strLt a.1.data b.1.data = true) :=
    ⟨fun a b h1 h2 => absurd (strLt_asymm _ _ h1) (by simp [h2])⟩
  have hperm : (sortEntries l₁).Perm (sortEntries l₂) :=
    (sortEntries_perm l₁).trans (h.trans (sortEntries_perm l₂).symm)
  have hup : ∀ (l : List (String × List Char)), (l.map Prod.fst).Nodup →
      (sortEntries l).Pairwise (fun a b => strLt a.1.data b.1.data = true) := by
    intro l hl
    have hnds : ((sortEntries l).map Prod.fst).Nodup :=
      (List.Perm.nodup_iff ((sortEntries_perm l).map Prod.fst)).mpr hl
    have hne : (sortEntries l).Pairwise (fun a b => a.1 ≠ b.1) :=
      List.pairwise_map.mp hnds
    refine ((sortEntries_pairwise l).and hne).imp ?_
    rintro a b ⟨hle, hab⟩
    rcases hlt : strLt a.1.data b.1.data with _ | _
    · have hba : strLt b.1.data a.1.data = false := by
        unfold pyStrLe at hle
        rwa [Bool.not_eq_true'] at hle
      exact absurd (String.ext (strLt_false_eq _ _ hlt hba)) hab
    · rfl
  exact List.eq_of_perm_of_sorted hperm (hup l₁ hnd)
    (hup l₂ ((List.Perm.nodup_iff (h.map Prod.fst)).mp hnd))

theorem dumpsEntries_eq_map (sk : Bool) (l : List (String × PyVal)) :
    dumpsEntries sk l = l.map (fun p => (p.1, dumpsVal sk p.2)) := by
  induction l with
  | nil => rfl
  | cons p rest ih =>
      obtain ⟨k, v⟩ := p
      rw [dumpsEntries, ih]
      rfl

/-- `json.dumps(·, sort_keys=True)` is insertion-order invariant on dicts
with distinct keys. -/
theorem json_dumps_sorted_perm (d₁ d₂ : List (String × PyVal)) (h : d₁.Perm d₂)
    (hnd : (d₁.map Prod.fst).Nodup) :
    json_dumps_sorted (.dict d₁) = json_dumps_sorted (.dict d₂) := by
  have he : sortEntries (dumpsEntries true d₁) = sortEntries (dumpsEntries true d₂) := by
    apply sortEntries_eq_of_perm
    · rw [dumpsEntries_eq_map, dumpsEntries_eq_map]
      exact h.map _
    · rw [dumpsEntries_eq_map, List.map_map]
      exact hnd
  unfold json_dumps_sorted
  rw [dumpsVal, dumpsVal, he]
  simp

theorem toHexFixed_length (k : Nat) : ∀ x, (toHexFixed k x).length = k := by
  induction k with
  | zero => intro x; rfl
  | succ k ih =>
      intro x
      unfold toHexFixed
      rw [List.length_append, ih]
      simp

theorem roundStep_length (W st : List Nat) (i : Nat) :
    (roundStep W st i).length = st.length := by
  unfold roundStep
  split <;> rfl

theorem foldl_roundStep_length (W : List Nat) (l : List Nat) :
    ∀ hs : List Nat, (l.foldl (roundStep W) hs).length = hs.length := by
  induction l with
  | nil => intro hs; rfl
  | cons i rest ih =>
      intro hs
      rw [List.foldl_cons, ih, roundStep_length]

theorem compress_length (hs block : List Nat) : (compress hs block).length = hs.length := by
  unfold compress
  rw [List.length_zipWith, foldl_roundStep_length]
  simp

theorem sha256Words_length (msg : List Nat) : (sha256Words msg).length = 8 := by
  unfold sha256Words
  generalize toBlocks16 (bytesToWords (padMessage msg)) = blocks
  have h : ∀ (bs : List (List Nat)) (hs : List Nat),
      (bs.foldl compress hs).length = hs.length := by
    intro bs
    induction bs with
    | nil => intro hs; rfl
    | cons b rest ih => intro hs; rw [List.foldl_cons, ih, compress_length]
  rw [h]
  rfl

theorem sha256HexChars_length (msg : List Nat) : (sha256HexChars msg).length = 64 := by
  unfold sha256HexChars
  rw [List.length_flatMap]
  have h : List.map (List.length ∘ toHexFixed 8) (sha256Words msg) =
      List.map (fun _ => 8) (sha256Words msg) := by
    apply List.map_congr_left
    intro a _
    exact toHexFixed_length 8 a
  rw [h, List.map_const', List.sum_replicate, sha256Words_length]
  rfl

theorem hexDigit_mem {m : Nat} (h : m < 16) : hexDigit m ∈ "0123456789abcdef".data := by
  have hall : ∀ m, m < 16 → hexDigit m ∈ "0123456789abcdef".data := by decide
  exact hall m h

theorem toHexFixed_mem (k : Nat) : ∀ x, ∀ ch ∈ toHexFixed k x,
    ch ∈ "0123456789abcdef".data := by
  induction k with
  | zero => intro x ch hch; cases hch
  | succ k ih =>
      intro x ch hch
      unfold toHexFixed at hch
      rcases List.mem_append.mp hch with h | h
      · exact ih _ ch h
      · rcases List.mem_singleton.mp h with rfl
        exact hexDigit_mem (Nat.mod_lt _ (by norm_num))

theorem sha256HexChars_mem (msg : List Nat) :
    ∀ ch ∈ sha256HexChars msg, ch ∈ "0123456789abcdef".data := by
  intro ch hch
  obtain ⟨w, _, hw⟩ := List.mem_flatMap.mp hch
  exact toHexFixed_mem 8 w ch hw

/-- **C8.** `_calculate_schema_hash` is deterministic and key-order
invariant: two schema dictionaries equal as mappings (same key-value pairs
regardless of insertion order, with the distinct keys an actual Python dict
has) hash to the same value, and the hash is always a 16-character lowercase
hexadecimal string. -/
theorem C8_schema_hash_key_order_invariant :
    ∀ (d₁ d₂ : List (String × PyVal)), d₁.Perm d₂ → (d₁.map Prod.fst).Nodup →
      _calculate_schema_hash (.dict d₁) = _calculate_schema_hash (.dict d₂) ∧
      (_calculate_schema_hash (.dict d₁)).length = 16 ∧
      ∀ ch ∈ (_calculate_schema_hash (.dict d₁)).data, ch ∈ "0123456789abcdef".data := by
  intro d₁ d₂ hperm hnd
  refine ⟨?_, ?_, ?_⟩
  · unfold _calculate_schema_hash
    rw [json_dumps_sorted_perm d₁ d₂ hperm hnd]
  · show ((sha256HexChars (utf8Bytes (json_dumps_sorted (.dict d₁)))).take 16).length = 16
    rw [List.length_take, sha256HexChars_length]
    rfl
  · intro ch hch
    have hch' : ch ∈ sha256HexChars (utf8Bytes (json_dumps_sorted (.dict d₁))) :=
      List.take_subset _ _ hch
    exact sha256HexChars_mem _ ch hch'

/-- Witness for C8: the two orderings of the dict with entries
`"b" ↦ 1, "a" ↦ 2` hash identically, to a 16-character lowercase hex
string. -/
theorem C8_schema_hash_key_order_invariant_witness :
    (([("b", PyVal.int 1), ("a", PyVal.int 2)] : List (String × PyVal)).Perm
      [("a", PyVal.int 2), ("b", PyVal.int 1)]) ∧
    ((([("b", PyVal.int 1), ("a", PyVal.int 2)] : List (String × PyVal)).map
      Prod.fst).Nodup) ∧
    (_calculate_schema_hash (.dict [("b", PyVal.int 1), ("a", PyVal.int 2)]) =
      _calculate_schema_hash (.dict [("a", PyVal.int 2), ("b", PyVal.int 1)]) ∧
     (_calculate_schema_hash (.dict [("b", PyVal.int 1), ("a", PyVal.int 2)])).length = 16 ∧
     ∀ ch ∈ (_calculate_schema_hash
        (.dict [("b", PyVal.int 1), ("a", PyVal.int 2)])).data,
       ch ∈ "0123456789abcdef".data) :=
  ⟨List.Perm.swap ("a", PyVal.int 2) ("b", PyVal.int 1) [],
   by decide,
   C8_schema_hash_key_order_invariant _ _
     (List.Perm.swap ("a", PyVal.int 2) ("b", PyVal.int 1) []) (by decide)⟩

theorem getD_some_mem {l : List (Option String)} {i : Nat} {pid : String}
    (h : l.getD i Option.none = some pid) : some pid ∈ l := by
  rw [List.getD_eq_getElem?_getD] at h
  rcases hx : l[i]? with _ | x <;> rw [hx] at h
  · cases h
  · simp only [Option.getD_some] at h
    subst h
    exact List.mem_iff_getElem?.mpr ⟨i, hx⟩

theorem foldl_subs_mono {ds : List String} :
    ∀ subs : List String, ∀ d ∈ subs,
      d ∈ ds.foldl (fun subs d => if d ∈ subs then subs else subs ++ [d]) subs := by
  induction ds with
  | nil => intro subs d hd; exact hd
  | cons e rest ih =>
      intro subs d hd
      rw [List.foldl_cons]
      split
      · exact ih subs d hd
      · exact ih _ d (List.mem_append.mpr (Or.inl hd))

theorem foldl_subs_covers {ds : List String} :
    ∀ subs : List String, ∀ d ∈ ds,
      d ∈ ds.foldl (fun subs d => if d ∈ subs then subs else subs ++ [d]) subs := by
  induction ds with
  | nil => intro subs d hd; cases hd
  | cons e rest ih =>
      intro subs d hd
      rw [List.foldl_cons]
      rcases List.mem_cons.mp hd with rfl | hd'
      · split
        · rename_i hmem
          exact foldl_subs_mono subs d hmem
        · exact foldl_subs_mono _ d (List.mem_append.mpr (Or.inr (List.mem_singleton.mpr rfl)))
      · exact ih _ d hd'

/-- After phase 1, every parcel's derived subdivision id has a Subdivision
node. -/
theorem phase1_covers {st : LinkState} {i : Nat} {pid : String}
    (h : st.parcels.getD i Option.none = some pid) :
    subdiv_of pid ∈ (phase1 st).subs := by
  unfold phase1
  apply foldl_subs_covers
  rw [List.mem_dedup]
  exact List.mem_map.mpr ⟨pid, List.mem_filterMap.mpr ⟨some pid, getD_some_mem h, rfl⟩, rfl⟩

/-- Every link a phase-2 batch creates goes from a parcel to the subdivision
derived from its id. -/
theorem batchLinks_mem {st : LinkState} {i : Nat} {s : String}
    (h : (i, s) ∈ batchLinks st) :
    ∃ pid, st.parcels.getD i Option.none = some pid ∧ s = subdiv_of pid := by
  obtain ⟨a, _, hfa⟩ := List.mem_filterMap.mp h
  split at hfa
  · rename_i pid hg
    split at hfa
    · injection hfa with h2
      cases h2
      exact ⟨pid, hg, rfl⟩
    · cases hfa
  · cases hfa

/-- An unlinked parcel index yields a row in the next batch when its
subdivision exists. -/
theorem unlinked_mem_spec {st : LinkState} {i : Nat} (h : i ∈ unlinkedIdx st) :
    ∃ pid, st.parcels.getD i Option.none = some pid ∧ ¬ isLinked st.links i = true := by
  unfold unlinkedIdx at h
  have h2 := List.of_mem_filter h
  simp only [Bool.and_eq_true, Bool.not_eq_true'] at h2
  obtain ⟨hsome, hnl⟩ := h2
  rcases hx : st.parcels.getD i Option.none with _ | pid
  · rw [hx] at hsome
    cases hsome
  · exact ⟨pid, rfl, by simp [hnl]⟩

/-- Invariants of the phase-2 loop: parcels and subdivisions are unchanged,
every link created is correct, and — when every needed subdivision exists —
every parcel with a non-null id ends up linked. -/
theorem linkLoop_spec (st : LinkState)
    (hP : ∀ i pid, st.parcels.getD i Option.none = some pid → subdiv_of pid ∈ st.subs)
    (hQ : ∀ i s, (i, s) ∈ st.links →
      ∃ pid, st.parcels.getD i Option.none = some pid ∧ s = subdiv_of pid) :
    (linkLoop st).parcels = st.parcels ∧ (linkLoop st).subs = st.subs ∧
    (∀ i s, (i, s) ∈ (linkLoop st).links →
      ∃ pid, st.parcels.getD i Option.none = some pid ∧ s = subdiv_of pid) ∧
    (∀ i pid, st.parcels.getD i Option.none = some pid →
      ∃ s, (i, s) ∈ (linkLoop st).links) := by
  induction st using linkLoop.induct with
  | case1 st newLinks hlen ih =>
      have hQ' : ∀ i s, (i, s) ∈ st.links ++ batchLinks st →
          ∃ pid, st.parcels.getD i Option.none = some pid ∧ s = subdiv_of pid := by
        intro i s hm
        rcases List.mem_append.mp hm with hm | hm
        · exact hQ i s hm
        · exact batchLinks_mem hm
      have hrw : linkLoop st = linkLoop { st with links := st.links ++ batchLinks st } := by
        rw [linkLoop]
        simp only [dif_pos hlen]
      obtain ⟨ih1, ih2, ih3, ih4⟩ := ih hP hQ'
      rw [hrw]
      exact ⟨ih1, ih2, ih3, ih4⟩
  | case2 st newLinks hlen =>
      have hrw : linkLoop st = st := by
        rw [linkLoop]
        simp only [dif_neg hlen]
      rw [hrw]
      refine ⟨rfl, rfl, hQ, ?_⟩
      intro i pid hpid
      by_contra hno
      push_neg at hno
      have hiu : i ∈ unlinkedIdx st := by
        unfold unlinkedIdx
        rw [List.mem_filter]
        constructor
        · rw [List.mem_range]
          by_contra hge
          push_neg at hge
          rw [List.getD_eq_default _ _ hge] at hpid
          cases hpid
        · rw [hpid]
          simp only [Option.isSome_some, Bool.true_and, Bool.not_eq_true']
          rw [← Bool.not_eq_true]
          intro hlk
          unfold isLinked at hlk
          obtain ⟨⟨j, s⟩, hjs, hbeq⟩ := List.any_eq_true.mp hlk
          have : j = i := by simpa using hbeq
          subst this
          exact hno s hjs
      apply hlen
      have hne : unlinkedIdx st ≠ [] := fun hnil => by rw [hnil] at hiu; cases hiu
      have htake : (unlinkedIdx st).take 10000 ≠ [] := by
        intro hnil
        have := congrArg List.length hnil
        rw [List.length_take] at this
        simp only [List.length_nil] at this
        have : (unlinkedIdx st).length = 0 := by omega
        exact hne (List.length_eq_zero.mp this)
      obtain ⟨a, ha⟩ := List.exists_mem_of_length_pos (List.length_pos.mpr htake)
      obtain ⟨pida, hpida, _⟩ := unlinked_mem_spec (List.take_subset _ _ ha)
      have hfa : (a, subdiv_of pida) ∈ batchLinks st := by
        unfold batchLinks
        apply List.mem_filterMap.mpr
        refine ⟨a, ha, ?_⟩
        have hsub := hP a pida hpida
        simp only [hpida, if_pos hsub]
      show 0 < (batchLinks st).length
      exact List.length_pos.mpr (fun hnil => by rw [hnil] at hfa; cases hfa)

/-- **C4.** The subdivision grouping key is the first 8 characters of the
parcel identifier: starting from a graph with no BELONGS_TO links,
`create_subdivision_links_batch` links every parcel with a non-null
`parcel_id` to exactly the Subdivision whose `subdivision_id` equals
`substring(parcel_id, 0, 8)` (which phase 1 creates), and the CSV
enrichment derives the same key — the first 8 characters of the FOLIO8
field — for every record it stores. -/
theorem C4_grouping_key_is_first8 :
    (∀ st : LinkState, st.links = [] →
      ∀ i pid, st.parcels.getD i Option.none = some pid →
        (i, subdiv_of pid) ∈ (create_subdivision_links_model st).links ∧
        (∀ s, (i, s) ∈ (create_subdivision_links_model st).links → s = subdiv_of pid) ∧
        subdiv_of pid ∈ (create_subdivision_links_model st).subs) ∧
    (∀ rows m, load_csv_data rows = .ok m →
      ∀ k rec, (k, rec) ∈ m →
        k = subdiv_of rec.folio8 ∧ rec.subdivision_id = k) := by
  constructor
  · intro st hlinks i pid hpid
    have hP : ∀ j pj, (phase1 st).parcels.getD j Option.none = some pj →
        subdiv_of pj ∈ (phase1 st).subs := by
      intro j pj hj
      exact @phase1_covers st j pj hj
    have hQ : ∀ j s, (j, s) ∈ (phase1 st).links →
        ∃ pj, (phase1 st).parcels.getD j Option.none = some pj ∧ s = subdiv_of pj := by
      intro j s hj
      have : (phase1 st).links = [] := by
        show st.links = []
        exact hlinks
      rw [this] at hj
      cases hj
    obtain ⟨h1, h2, h3, h4⟩ := linkLoop_spec (phase1 st) hP hQ
    have hpid' : (phase1 st).parcels.getD i Option.none = some pid := hpid
    obtain ⟨s, hs⟩ := h4 i pid hpid'
    obtain ⟨pid', hpid'', hseq⟩ := h3 i s hs
    have : pid' = pid := by
      rw [hpid'] at hpid''
      cases hpid''
      rfl
    subst this
    subst hseq
    refine ⟨hs, ?_, ?_⟩
    · intro s' hs'
      obtain ⟨pid'', hpid''', hseq'⟩ := h3 i s' hs'
      rw [hpid'] at hpid'''
      cases hpid'''
      exact hseq'
    · rw [show (create_subdivision_links_model st).subs = (phase1 st).subs from h2]
      exact phase1_covers hpid
  · intro rows
    suffices haux : ∀ (m₀ m : List (String × ParcelRec)),
        rows.foldlM loadCsvStep m₀ = .ok m →
        (∀ k rec, (k, rec) ∈ m₀ → k = subdiv_of rec.folio8 ∧ rec.subdivision_id = k) →
        (∀ k rec, (k, rec) ∈ m → k = subdiv_of rec.folio8 ∧ rec.subdivision_id = k) by
      intro m h
      exact haux [] m h (fun k rec hk => by cases hk)
    induction rows with
    | nil =>
        intro m₀ m h hval
        simp only [List.foldlM_nil] at h
        cases h
        exact hval
    | cons row rest ih =>
        intro m₀ m h hval
        rw [List.foldlM_cons] at h
        rcases hstep : loadCsvStep m₀ row with e | m₁ <;> rw [hstep] at h
        · cases h
        · replace h : rest.foldlM loadCsvStep m₁ = .ok m := h
          refine ih m₁ m h ?_
          intro k rec hk
          simp only [loadCsvStep] at hstep
          split at hstep
          · split at hstep
            · cases hstep
              exact hval k rec hk
            · split at hstep
              · cases hstep
              · cases hstep
                rcases List.mem_append.mp hk with hk' | hk'
                · exact hval k rec hk'
                · rcases List.mem_singleton.mp hk' with ⟨rfl, rfl⟩
                  exact ⟨rfl, rfl⟩
          · cases hstep
            exact hval k rec hk

/-- Witness for C4: the single parcel `503911073240` gets linked to exactly
the subdivision `50391107`. -/
theorem C4_grouping_key_is_first8_witness :
    (⟨[some "503911073240"], [], []⟩ : LinkState).links = [] ∧
    (⟨[some "503911073240"], [], []⟩ : LinkState).parcels.getD 0 Option.none =
      some "503911073240" ∧
    ((0, subdiv_of "503911073240") ∈
      (create_subdivision_links_model ⟨[some "503911073240"], [], []⟩).links ∧
    (∀ s, (0, s) ∈ (create_subdivision_links_model ⟨[some "503911073240"], [], []⟩).links →
      s = subdiv_of "503911073240") ∧
    subdiv_of "503911073240" ∈
      (create_subdivision_links_model ⟨[some "503911073240"], [], []⟩).subs) :=
  ⟨rfl, rfl,
    C4_grouping_key_is_first8.1 ⟨[some "503911073240"], [], []⟩ rfl 0 "503911073240" rfl⟩

theorem loadCsv_lookup_preserved (rows : List (List (String × String))) :
    ∀ m₀ m, rows.foldlM loadCsvStep m₀ = .ok m →
      ∀ k v, m₀.lookup k = some v → m.lookup k = some v := by
  induction rows with
  | nil =>
      intro m₀ m h k v hv
      simp only [List.foldlM_nil] at h
      cases h
      exact hv
  | cons row rest ih =>
      intro m₀ m h k v hv
      rw [List.foldlM_cons] at h
      rcases hstep : loadCsvStep m₀ row with e | m₁ <;> rw [hstep] at h
      · cases h
      · replace h : rest.foldlM loadCsvStep m₁ = .ok m := h
        refine ih m₁ m h k v ?_
        simp only [loadCsvStep] at hstep
        split at hstep
        · split at hstep
          · cases hstep
            exact hv
          · split at hstep
            · cases hstep
            · cases hstep
              rw [List.lookup_append, hv]
              rfl
        · cases hstep
          exact hv

theorem any_key_eq_false_iff_lookup_none {β : Type} (m : List (String × β)) (k : String) :
    (m.any (fun p => p.1 == k)) = false ↔ m.lookup k = Option.none := by
  induction m with
  | nil => simp [List.lookup]
  | cons p rest ih =>
      obtain ⟨pk, pv⟩ := p
      rw [List.lookup_cons]
      simp only [List.any_cons, Bool.or_eq_false_iff]
      constructor
      · rintro ⟨h1, h2⟩
        have : (k == pk) = false := by
          rw [beq_eq_false_iff_ne] at h1 ⊢
          exact fun hh => h1 hh.symm
        rw [this]
        exact ih.mp h2
      · intro h
        rcases hbeq : (k == pk) with _ | _
        · rw [hbeq] at h
          refine ⟨?_, ih.mpr h⟩
          rw [beq_eq_false_iff_ne] at hbeq ⊢
          exact fun hh => hbeq hh.symm
        · rw [hbeq] at h
          cases h

/-- The first qualifying row for a key determines the stored record. -/
theorem load_csv_first_wins (rows : List (List (String × String))) :
    ∀ m₀ m, rows.foldlM loadCsvStep m₀ = .ok m →
      ∀ k, m₀.lookup k = Option.none →
        ∀ row, rows.find? (fun r => rowQualifies r && (rowKey r == k)) = some row →
          ∃ uc, unitCountOf (rowGet row "UNIT_COUNT") = .ok uc ∧
            m.lookup k = some (mkParcelRec k (rowGet row "FOLIO8") uc row) := by
  induction rows with
  | nil =>
      intro m₀ m _ k _ row hfind
      simp at hfind
  | cons row₀ rest ih =>
      intro m₀ m h k hnone row hfind
      rw [List.foldlM_cons] at h
      rcases hstep : loadCsvStep m₀ row₀ with e | m₁ <;> rw [hstep] at h
      · cases h
      · replace h : rest.foldlM loadCsvStep m₁ = .ok m := h
        rw [List.find?_cons] at hfind
        rcases hp : (rowQualifies row₀ && (rowKey row₀ == k)) with _ | _ <;>
          rw [hp] at hfind
        · -- row₀ does not match: its step leaves the key unbound
          refine ih m₁ m h k ?_ row hfind
          simp only [loadCsvStep] at hstep
          split at hstep
          · rename_i hqual
            split at hstep
            · cases hstep
              exact hnone
            · split at hstep
              · cases hstep
              · cases hstep
                rw [List.lookup_append, hnone]
                have hkne : (k == rowKey row₀) = false := by
                  rw [Bool.and_eq_false_iff] at hp
                  rcases hp with hp | hp
                  · simp only [rowQualifies] at hp
                    exact absurd hqual (of_decide_eq_false hp)
                  · rw [beq_eq_false_iff_ne] at hp ⊢
                    exact fun hh => hp hh.symm
                simp only [Option.none_or]
                rw [List.lookup_cons]
                have : (k == ((rowGet row₀ "FOLIO8").data.take 8).asString) = false := hkne
                rw [this]
                rfl
          · cases hstep
            exact hnone
        · -- row₀ is the first match: it inserts the record, later rows keep it
          cases hfind
          simp only [Bool.and_eq_true] at hp
          obtain ⟨hqual, hkey⟩ := hp
          simp only [loadCsvStep] at hstep
          split at hstep
          · split at hstep
            · rename_i hany
              rw [← any_key_eq_false_iff_lookup_none] at hnone
              have hkeq : rowKey row₀ = k := by rwa [beq_iff_eq] at hkey
              rw [show ((rowGet row₀ "FOLIO8").data.take 8).asString = k from hkeq] at hany
              rw [hnone] at hany
              cases hany
            · rcases huc : unitCountOf (rowGet row₀ "UNIT_COUNT") with e | uc <;>
                rw [huc] at hstep
              · cases hstep
              · cases hstep
                refine ⟨uc, rfl, ?_⟩
                have hkeq : rowKey row₀ = k := by rwa [beq_iff_eq] at hkey
                refine loadCsv_lookup_preserved rest _ m h k _ ?_
                rw [show ((rowGet row₀ "FOLIO8").data.take 8).asString = k from hkeq]
                rw [List.lookup_append, hnone]
                simp only [Option.none_or, List.lookup_cons, beq_self_eq_true]
          · rename_i hnqual
            simp only [rowQualifies] at hqual
            exact absurd (of_decide_eq_true hqual) hnqual

/-- Only rows whose stripped FOLIO8 has length at least 8 contribute, keyed
by its first 8 characters. -/
theorem load_csv_records_qualify (rows : List (List (String × String))) :
    ∀ m₀ m, rows.foldlM loadCsvStep m₀ = .ok m →
      (∀ k rec, (k, rec) ∈ m₀ → rec.folio8 ≠ "" ∧ rec.folio8.length ≥ 8 ∧
        k = (rec.folio8.data.take 8).asString) →
      (∀ k rec, (k, rec) ∈ m → rec.folio8 ≠ "" ∧ rec.folio8.length ≥ 8 ∧
        k = (rec.folio8.data.take 8).asString) := by
  induction rows with
  | nil =>
      intro m₀ m h hval
      simp only [List.foldlM_nil] at h
      cases h
      exact hval
  | cons row rest ih =>
      intro m₀ m h hval
      rw [List.foldlM_cons] at h
      rcases hstep : loadCsvStep m₀ row with e | m₁ <;> rw [hstep] at h
      · cases h
      · replace h : rest.foldlM loadCsvStep m₁ = .ok m := h
        refine ih m₁ m h ?_
        intro k rec hk
        simp only [loadCsvStep] at hstep
        split at hstep
        · rename_i hqual
          split at hstep
          · cases hstep
            exact hval k rec hk
          · split at hstep
            · cases hstep
            · cases hstep
              rcases List.mem_append.mp hk with hk' | hk'
              · exact hval k rec hk'
              · rcases List.mem_singleton.mp hk' with ⟨rfl, rfl⟩
                exact ⟨hqual.1, hqual.2, rfl⟩
        · cases hstep
          exact hval k rec hk

/-- Invariant of the batch-accumulation fold: flushed batches hold exactly
1000 records, the pending batch fewer, and nothing is lost or duplicated. -/
theorem enrich_fold_spec (existing : String → Bool) (m : List (String × ParcelRec)) :
    ∀ (acc : List (List ParcelRec)) (batch : List ParcelRec),
      (∀ b ∈ acc, b.length = 1000) → batch.length < 1000 →
      (∀ b ∈ (m.foldl (enrichStep existing) (acc, batch)).1, b.length = 1000) ∧
      (m.foldl (enrichStep existing) (acc, batch)).2.length < 1000 ∧
      (m.foldl (enrichStep existing) (acc, batch)).1.flatten ++
        (m.foldl (enrichStep existing) (acc, batch)).2 =
        acc.flatten ++ batch ++ (m.filter (fun p => existing p.1)).map Prod.snd := by
  induction m with
  | nil =>
      intro acc batch hacc hb
      exact ⟨hacc, hb, by simp⟩
  | cons p rest ih =>
      intro acc batch hacc hb
      by_cases he : existing p.1 = true
      · by_cases hfull : (batch ++ [p.2]).length ≥ 1000
        · have hstep : enrichStep existing (acc, batch) p = (acc ++ [batch ++ [p.2]], []) := by
            simp only [enrichStep, he, if_true]
            rw [if_pos hfull]
          rw [List.foldl_cons, hstep, List.filter_cons]
          simp only [he, if_true]
          have hacc' : ∀ b ∈ acc ++ [batch ++ [p.2]], b.length = 1000 := by
            intro b hb'
            rcases List.mem_append.mp hb' with hb' | hb'
            · exact hacc b hb'
            · rcases List.mem_singleton.mp hb' with rfl
              rw [List.length_append] at hfull ⊢
              simp only [List.length_singleton] at hfull ⊢
              omega
          obtain ⟨ih1, ih2, ih3⟩ := ih (acc ++ [batch ++ [p.2]]) [] hacc' (by norm_num)
          refine ⟨ih1, ih2, ?_⟩
          rw [ih3]
          simp [List.append_assoc]
        · have hstep : enrichStep existing (acc, batch) p = (acc, batch ++ [p.2]) := by
            simp only [enrichStep, he, if_true]
            rw [if_neg hfull]
          rw [List.foldl_cons, hstep, List.filter_cons]
          simp only [he, if_true]
          have hb' : (batch ++ [p.2]).length < 1000 := by
            rw [List.length_append] at hfull ⊢
            simp only [List.length_singleton] at hfull ⊢
            omega
          obtain ⟨ih1, ih2, ih3⟩ := ih acc (batch ++ [p.2]) hacc hb'
          refine ⟨ih1, ih2, ?_⟩
          rw [ih3]
          simp [List.append_assoc]
      · have hstep : enrichStep existing (acc, batch) p = (acc, batch) := by
          simp only [enrichStep]
          rw [if_neg he]
        rw [List.foldl_cons, hstep, List.filter_cons, if_neg he]
        exact ih acc batch hacc hb

/-- The batches of `enrich_all_subdivisions` hold exactly the records of
existing subdivisions, each batch between 1 and 1000 rows, every batch
except possibly the last exactly 1000. -/
theorem enrich_all_batches_spec (m : List (String × ParcelRec)) (existing : String → Bool) :
    (enrich_all_batches m existing).flatten =
      (m.filter (fun p => existing p.1)).map Prod.snd ∧
    ((enrich_all_batches m existing).all
      (fun b => decide (1 ≤ b.length) && decide (b.length ≤ 1000))) = true ∧
    ((enrich_all_batches m existing).dropLast.all (fun b => b.length == 1000)) = true := by
  obtain ⟨hacc, hlen, hflat⟩ :=
    enrich_fold_spec existing m [] [] (fun b hb => by cases hb) (by norm_num)
  unfold enrich_all_batches
  by_cases hne : (List.foldl (enrichStep existing) ([], []) m).2 ≠ []
  · simp only [if_pos hne]
    refine ⟨?_, ?_, ?_⟩
    · rw [List.flatten_append]
      simpa using hflat
    · rw [List.all_eq_true]
      intro b hb
      simp only [Bool.and_eq_true, decide_eq_true_eq]
      rcases List.mem_append.mp hb with hb | hb
      · rw [hacc b hb]
        omega
      · rcases List.mem_singleton.mp hb with rfl
        have h1 := List.length_pos.mpr hne
        omega
    · rw [List.dropLast_concat, List.all_eq_true]
      intro b hb
      rw [beq_iff_eq]
      exact hacc b hb
  · simp only [if_neg hne]
    simp only [ne_eq, not_not] at hne
    refine ⟨?_, ?_, ?_⟩
    · rw [hne] at hflat
      simpa using hflat
    · rw [List.all_eq_true]
      intro b hb
      simp only [Bool.and_eq_true, decide_eq_true_eq]
      rw [hacc b hb]
      omega
    · rw [List.all_eq_true]
      intro b hb
      rw [beq_iff_eq]
      exact hacc b (List.dropLast_subset _ hb)

/-- **C6.** `load_csv_data` builds an insertion-ordered mapping keyed by the
first 8 characters of FOLIO8: only rows whose stripped FOLIO8 has length at
least 8 contribute, the first row seen for a key wins, and the matching
records are then upserted in batches of (at most, and except for the last
exactly) 1000 rows, each batch through a single UNWIND query. -/
theorem C6_csv_mapping_and_batched_upserts :
    (∀ rows m, load_csv_data rows = .ok m →
      ∀ k rec, (k, rec) ∈ m →
        rec.folio8 ≠ "" ∧ rec.folio8.length ≥ 8 ∧
        k = (rec.folio8.data.take 8).asString) ∧
    (∀ rows m, load_csv_data rows = .ok m →
      ∀ k row, rows.find? (fun r => rowQualifies r && (rowKey r == k)) = some row →
        ∃ uc, unitCountOf (rowGet row "UNIT_COUNT") = .ok uc ∧
          m.lookup k = some (mkParcelRec k (rowGet row "FOLIO8") uc row)) ∧
    (∀ (m : List (String × ParcelRec)) (existing : String → Bool),
      (enrich_all_batches m existing).flatten =
        (m.filter (fun p => existing p.1)).map Prod.snd ∧
      ((enrich_all_batches m existing).all
        (fun b => decide (1 ≤ b.length) && decide (b.length ≤ 1000))) = true ∧
      ((enrich_all_batches m existing).dropLast.all (fun b => b.length == 1000)) = true) ∧
    (∀ batch, enrich_subdivision_batch batch = ⟨batch, 1⟩) := by
  refine ⟨?_, ?_, enrich_all_batches_spec, fun _ => rfl⟩
  · intro rows m h
    exact load_csv_records_qualify rows [] m h (fun k rec hk => by cases hk)
  · intro rows m h k row hfind
    exact load_csv_first_wins rows [] m h k rfl row hfind

/-- Witness for C6: a one-row CSV whose FOLIO8 is `AB12345678` maps the key
`AB123456` to that row's record, and is the first (only) qualifying row for
that key. -/
theorem C6_csv_mapping_and_batched_upserts_witness :
    load_csv_data [[("FOLIO8", "AB12345678"), ("UNIT_COUNT", "3")]] =
      .ok [("AB123456", mkParcelRec "AB123456" "AB12345678" (some 3)
        [("FOLIO8", "AB12345678"), ("UNIT_COUNT", "3")])] ∧
    ([[("FOLIO8", "AB12345678"), ("UNIT_COUNT", "3")]].find?
      (fun r => rowQualifies r && (rowKey r == "AB123456"))) =
      some [("FOLIO8", "AB12345678"), ("UNIT_COUNT", "3")] ∧
    (∃ uc, unitCountOf (rowGet [("FOLIO8", "AB12345678"), ("UNIT_COUNT", "3")]
        "UNIT_COUNT") = .ok uc ∧
      ([("AB123456", mkParcelRec "AB123456" "AB12345678" (some 3)
          [("FOLIO8", "AB12345678"), ("UNIT_COUNT", "3")])]).lookup "AB123456" =
        some (mkParcelRec "AB123456"
          (rowGet [("FOLIO8", "AB12345678"), ("UNIT_COUNT", "3")] "FOLIO8") uc
          [("FOLIO8", "AB12345678"), ("UNIT_COUNT", "3")])) :=
  ⟨rfl, by decide,
    C6_csv_mapping_and_batched_upserts.2.1
      [[("FOLIO8", "AB12345678"), ("UNIT_COUNT", "3")]]
      [("AB123456", mkParcelRec "AB123456" "AB12345678" (some 3)
        [("FOLIO8", "AB12345678"), ("UNIT_COUNT", "3")])]
      rfl "AB123456" [("FOLIO8", "AB12345678"), ("UNIT_COUNT", "3")] (by decide)⟩

/-- Witness for C1: adding the relationship type `ENACTS` to an empty schema
is reported as exactly one `added` change. -/
theorem C1_compare_schemas_set_difference_witness :
    (⟨"added", "relationship_type", "ENACTS", .dict []⟩ : SchemaChange) ∈
      compare_schemas ⟨[], [], []⟩ ⟨[], ["ENACTS"], []⟩ :=
  (C1_compare_schemas_set_difference ⟨[], [], []⟩ ⟨[], ["ENACTS"], []⟩ _).mpr
    (Or.inr (Or.inr (Or.inr (Or.inl ⟨"ENACTS", by decide, by decide, rfl⟩))))
